import Mathlib

/-!
# Signals-Slots: the connection registry

A shallow embedding of `SignalsSlotsManager` (`SignalsSlotsManager.h`,
`SignalSlotManager.cpp`) and of the emission path of `Signal` / `Slot`.

* Pointers (`void*`, `AsSlot*`) are natural numbers, `0` being `nullptr`.
* A function pointer argument carries the identity of its static type
  (the template argument `FunctionPtr_t`) next to its value, because the
  variable template `_funcPtrToSlot<FunctionPtr_t>` is one table per type.
* `std::unordered_map` is an association list searched from the front;
  `std::vector` is a `List`.
* `delete` is recorded in the `deleted` log of the manager. The manager deletes
  the slot objects of connections that carry an owner; these are the wrappers
  made by the member-function `connect`, marked heap-allocated, whose
  destructor does not call back into the manager.
* The slot objects made by `new` in the `connect` overloads of `SignalsSlots`
  are recorded in the process state `SignalsSlots`; an address returned by
  `new` is taken never to have been used before.
* The operations run one at a time to completion; the one place where the
  mutex matters, the guard of `connectSignalSlot` evaluated outside the lock, is
  modelled by `runTwoConnects`, with the guard and each critical section as
  one atomic step.
-/

/-- The address of a slot object (`typedef void* SlotObjPtr`); `0` is `nullptr`. -/
abbrev SlotObjPtr := Nat

/-- The address of a signal (`typedef void* SignalPtr`). -/
abbrev SignalPtr := Nat

/-- An `AsSlot*`: the receiver on whose behalf a wrapper was made; `0` is `nullptr`. -/
abbrev AsSlotPtr := Nat

/-- The enum `SignalsSlotsManager::SlotType`. -/
inductive SlotType where
  | SlotObject
  | MemberFunction
deriving DecidableEq

/-- The enum `SignalsSlotsManager::Type` (cardinality of a connection). -/
inductive ConnectionType where
  | Multi
  | Single
deriving DecidableEq

/-- A function-pointer argument `FunctionPtr_t func`: `ptrType` identifies the
template argument `FunctionPtr_t`, `value` is the pointer (`0` is `nullptr`). -/
structure FunctionPtr where
  ptrType : Nat
  value : Nat
deriving DecidableEq

/-- The argument `nullptr` (of type `std::nullptr_t`, numbered `0`). -/
def FunctionPtr.null : FunctionPtr := ⟨0, 0⟩

/-- One element of a signal's vector:
`std::tuple<SlotObjPtr , AsSlot* , SlotType , Type>`. -/
structure Connection where
  slotObj : SlotObjPtr
  asSlot : AsSlotPtr
  slotType : SlotType
  connectionType : ConnectionType
deriving DecidableEq

/-- The type of `_signalsSlotsRegistery`:
`std::unordered_map<SignalPtr , std::vector<std::tuple<...>>>`. -/
abbrev Registery := List (SignalPtr × List Connection)

namespace Registery

/-- The lookup `_signalsSlotsRegistery.find(signal)`: the vector stored under
`signal`, or `none` for `cend()`. -/
def find : Registery → SignalPtr → Option (List Connection)
  | [], _ => none
  | (k, v) :: r, signal => if k = signal then some v else find r signal

/-- The removal `_signalsSlotsRegistery.erase(signal)`. -/
def erase (r : Registery) (signal : SignalPtr) : Registery :=
  r.filter (fun kv => decide (kv.1 ≠ signal))

/-- The update `_signalsSlotsRegistery[signal].emplace_back(tuple)`: `operator[]`
inserts an empty vector when the key is absent. -/
def emplaceBack : Registery → SignalPtr → Connection → Registery
  | [], signal, tuple => [(signal, [tuple])]
  | (k, v) :: r, signal, tuple =>
    if k = signal then (k, v ++ [tuple]) :: r else (k, v) :: emplaceBack r signal tuple

/-- Writing through the iterator returned by `find(signal)`: the vector
`it->second` becomes `v`. -/
def assign : Registery → SignalPtr → List Connection → Registery
  | [], _, _ => []
  | (k, w) :: r, signal, v =>
    if k = signal then (k, v) :: r else (k, w) :: assign r signal v

end Registery

/-- The state of the singleton `SignalsSlotsManager`: the per-type tables
`_funcPtrToSlot<FunctionPtr_t>`, the registry, and the log of the slot objects
on which `delete` has been called (oldest first). -/
structure SignalsSlotsManager where
  _funcPtrToSlot : Nat → List SlotObjPtr
  _signalsSlotsRegistery : Registery
  deleted : List SlotObjPtr

namespace SignalsSlotsManager

/-- The manager as constructed by `getInstance()`: nothing registered. -/
def empty : SignalsSlotsManager :=
  { _funcPtrToSlot := fun _ => [], _signalsSlotsRegistery := [], deleted := [] }

/-- The test of the owner branch:
`asSlot == get<AsSlotPtr_Index>(tuple) && std::find(table, get<SlotObjPtr_Index>(tuple)) != cend`. -/
def sameOwnerInTable (asSlot : AsSlotPtr) (table : List SlotObjPtr) (tuple : Connection) : Bool :=
  decide (asSlot = tuple.asSlot) && decide (tuple.slotObj ∈ table)

/-- The member function `SignalsSlotsManager::checkIfSameConnectionExists`: both
branches look the signal up and return `true` at the first matching tuple. -/
def checkIfSameConnectionExists (m : SignalsSlotsManager) (signalToCheck : SignalPtr)
    (slotToCheck : SlotObjPtr) (asSlot : AsSlotPtr) (func : FunctionPtr) : Bool :=
  if asSlot = 0 then
    match m._signalsSlotsRegistery.find signalToCheck with
    | some v => v.any (fun tuple => decide (slotToCheck = tuple.slotObj))
    | none => false
  else
    match m._signalsSlotsRegistery.find signalToCheck with
    | some v => v.any (sameOwnerInTable asSlot (m._funcPtrToSlot func.ptrType))
    | none => false

/-- The member function `SignalsSlotsManager::connectSignalSlot`: nothing is done
for a `Single` duplicate; otherwise the slot object is recorded in the table of
the function's type when `func != nullptr`, and the tuple is appended. -/
def connectSignalSlot (m : SignalsSlotsManager) (signal : SignalPtr) (slotObj : SlotObjPtr)
    (asSlot : AsSlotPtr) (func : FunctionPtr) (slotType : SlotType)
    (connectionType : ConnectionType) : SignalsSlotsManager :=
  if connectionType = ConnectionType.Single
      ∧ checkIfSameConnectionExists m signal slotObj asSlot func = true then
    m
  else
    let m1 : SignalsSlotsManager :=
      if func.value ≠ 0 then
        { m with _funcPtrToSlot :=
            Function.update m._funcPtrToSlot func.ptrType (m._funcPtrToSlot func.ptrType ++ [slotObj]) }
      else m
    { m1 with _signalsSlotsRegistery :=
        m1._signalsSlotsRegistery.emplaceBack signal ⟨slotObj, asSlot, slotType, connectionType⟩ }

/-- The loop of the `asSlot == nullptr` branch of `disconnectSignalSlot`, from
the iterator `it2` to the end of the vector: the result is what the part of
the vector from `it2` on becomes. An erased element is followed by `return`
when `type == Single`. -/
def disconnectSlotLoop (slot : SlotObjPtr) (type : ConnectionType) :
    List Connection → List Connection
  | [] => []
  | tuple :: rest =>
    if tuple.slotObj = slot then
      if type = ConnectionType.Single then rest else disconnectSlotLoop slot type rest
    else tuple :: disconnectSlotLoop slot type rest

/-- The loop of the `asSlot != nullptr` branch of `disconnectSignalSlot`.
The iterator `it2` splits the vector into `kept` (the elements before it) and
the elements from it on; `table` is `_funcPtrToSlot<FunctionPtr_t>` and `del`
the deletion log. `fuel` bounds the number of executions of the loop body:
`none` means the loop has not ended within `fuel` iterations. When the owner
matches and the slot object is not in the table, the body changes nothing
(`it2` is not advanced). -/
def disconnectOwnerLoop (asSlot : AsSlotPtr) (type : ConnectionType) :
    Nat → List Connection → List Connection → List SlotObjPtr → List SlotObjPtr →
    Option (List Connection × List SlotObjPtr × List SlotObjPtr)
  | _, kept, [], table, del => some (kept, table, del)
  | 0, _, _ :: _, _, _ => none
  | fuel + 1, kept, tuple :: rest, table, del =>
    if tuple.asSlot = asSlot then
      if tuple.slotObj ∈ table then
        if type = ConnectionType.Single then
          some (kept ++ rest, table.erase tuple.slotObj, del ++ [tuple.slotObj])
        else
          disconnectOwnerLoop asSlot type fuel kept rest (table.erase tuple.slotObj)
            (del ++ [tuple.slotObj])
      else
        disconnectOwnerLoop asSlot type fuel kept (tuple :: rest) table del
    else
      disconnectOwnerLoop asSlot type fuel (kept ++ [tuple]) rest table del

/-- The member function `SignalsSlotsManager::disconnectSignalSlot`. The result is `none` when the
loop of the owner branch does not end within `fuel` iterations. The argument
`slot` is read by the `asSlot == nullptr` branch only, `func` (through its
type) by the other branch only. -/
def disconnectSignalSlot (fuel : Nat) (m : SignalsSlotsManager) (signal : SignalPtr)
    (slot : SlotObjPtr) (asSlot : AsSlotPtr) (func : FunctionPtr) (type : ConnectionType) :
    Option SignalsSlotsManager :=
  if asSlot = 0 then
    match m._signalsSlotsRegistery.find signal with
    | some v =>
      some { m with _signalsSlotsRegistery :=
                m._signalsSlotsRegistery.assign signal (disconnectSlotLoop slot type v) }
    | none => some m
  else
    match m._signalsSlotsRegistery.find signal with
    | some v =>
      match disconnectOwnerLoop asSlot type fuel [] v (m._funcPtrToSlot func.ptrType) m.deleted with
      | some (v1, table1, del1) =>
        some { _funcPtrToSlot := Function.update m._funcPtrToSlot func.ptrType table1
               _signalsSlotsRegistery := m._signalsSlotsRegistery.assign signal v1
               deleted := del1 }
      | none => none
    | none => some m

/-- The loop of `onSignalEmited` over the vector of the signal: the slot
objects called, in the order of the calls. A slot is taken to return normally
and not to call back into the manager. -/
def invokeSlots : List Connection → List SlotObjPtr
  | [] => []
  | tuple :: rest => tuple.slotObj :: invokeSlots rest

/-- The member function `SignalsSlotsManager::onSignalEmited`: the sequence of slot objects called. -/
def onSignalEmited (m : SignalsSlotsManager) (signal : SignalPtr) : List SlotObjPtr :=
  match m._signalsSlotsRegistery.find signal with
  | some v => invokeSlots v
  | none => []

/-- The member function `SignalsSlotsManager::onSignalDestroyed`. -/
def onSignalDestroyed (m : SignalsSlotsManager) (signal : SignalPtr) : SignalsSlotsManager :=
  { m with _signalsSlotsRegistery := m._signalsSlotsRegistery.erase signal }

/-- The inner loop of `onSlotDestroyed(SlotObjPtr)` over one vector. -/
def eraseSlotLoop (slot : SlotObjPtr) : List Connection → List Connection
  | [] => []
  | tuple :: rest =>
    if tuple.slotObj = slot then eraseSlotLoop slot rest
    else tuple :: eraseSlotLoop slot rest

/-- The member function `SignalsSlotsManager::onSlotDestroyed(SlotObjPtr slot)`. -/
def onSlotDestroyed (m : SignalsSlotsManager) (slot : SlotObjPtr) : SignalsSlotsManager :=
  { m with _signalsSlotsRegistery :=
      m._signalsSlotsRegistery.map (fun connection => (connection.1, eraseSlotLoop slot connection.2)) }

/-- The inner loop of `onSlotDestroyed(AsSlot*)` over one vector: the vector
left and the deletion log extended by the slot objects deleted. -/
def eraseOwnerLoop (asSlot : AsSlotPtr) :
    List Connection → List SlotObjPtr → List Connection × List SlotObjPtr
  | [], del => ([], del)
  | tuple :: rest, del =>
    if tuple.asSlot = asSlot then eraseOwnerLoop asSlot rest (del ++ [tuple.slotObj])
    else
      let r := eraseOwnerLoop asSlot rest del
      (tuple :: r.1, r.2)

/-- The outer loop of `onSlotDestroyed(AsSlot*)` over the entries of the registry. -/
def eraseOwnerAll (asSlot : AsSlotPtr) :
    Registery → List SlotObjPtr → Registery × List SlotObjPtr
  | [], del => ([], del)
  | connection :: r, del =>
    let here := eraseOwnerLoop asSlot connection.2 del
    let others := eraseOwnerAll asSlot r here.2
    ((connection.1, here.1) :: others.1, others.2)

/-- The member function `SignalsSlotsManager::onSlotDestroyed(AsSlot* asSlot)`: the
tables `_funcPtrToSlot` are not touched. -/
def onSlotDestroyedAsSlot (m : SignalsSlotsManager) (asSlot : AsSlotPtr) : SignalsSlotsManager :=
  let r := eraseOwnerAll asSlot m._signalsSlotsRegistery m.deleted
  { m with _signalsSlotsRegistery := r.1, deleted := r.2 }

/-- The vector of `signal` in the registry, empty when `signal` has no entry. -/
def connections (m : SignalsSlotsManager) (signal : SignalPtr) : List Connection :=
  (m._signalsSlotsRegistery.find signal).getD []

/-- One call of `connectSignalSlot`, with its arguments. -/
structure ConnectCall where
  signal : SignalPtr
  slotObj : SlotObjPtr
  asSlot : AsSlotPtr
  func : FunctionPtr
  slotType : SlotType
  connectionType : ConnectionType
deriving DecidableEq

/-- The call `c` made on the manager `m`. -/
def ConnectCall.run (m : SignalsSlotsManager) (c : ConnectCall) : SignalsSlotsManager :=
  connectSignalSlot m c.signal c.slotObj c.asSlot c.func c.slotType c.connectionType

/-- A sequence of `connectSignalSlot` calls, made one after the other. -/
def connectAll (m : SignalsSlotsManager) (calls : List ConnectCall) : SignalsSlotsManager :=
  calls.foldl ConnectCall.run m

/-- The slot objects of the calls of `calls` on `signal` that inserted a
connection, in the order of the calls: a call inserts unless it is `Single`
and `checkIfSameConnectionExists` holds in the state it is made in. -/
def insertedOn (signal : SignalPtr) : SignalsSlotsManager → List ConnectCall → List SlotObjPtr
  | _, [] => []
  | m, c :: calls =>
    if c.signal = signal ∧
        ¬ (c.connectionType = ConnectionType.Single
            ∧ checkIfSameConnectionExists m c.signal c.slotObj c.asSlot c.func = true) then
      c.slotObj :: insertedOn signal (c.run m) calls
    else insertedOn signal (c.run m) calls

/-- The connections that a disconnect by owner `asSlot` that returns leaves in
a vector: with `Multi` those of the other owners, with `Single` all but the
first connection of `asSlot`. -/
def ownerKept (asSlot : AsSlotPtr) (type : ConnectionType) (v : List Connection) :
    List Connection :=
  match type with
  | ConnectionType.Multi => v.filter (fun tuple => decide (tuple.asSlot ≠ asSlot))
  | ConnectionType.Single => v.eraseP (fun tuple => decide (tuple.asSlot = asSlot))

/-- The connections that a disconnect by owner `asSlot` that returns drops
from a vector: with `Multi` all the connections of `asSlot`, with `Single` the
first one. -/
def ownerRemoved (asSlot : AsSlotPtr) (type : ConnectionType) (v : List Connection) :
    List Connection :=
  match type with
  | ConnectionType.Multi => v.filter (fun tuple => decide (tuple.asSlot = asSlot))
  | ConnectionType.Single => (v.find? (fun tuple => decide (tuple.asSlot = asSlot))).toList

/-- An exception object thrown by a slot. -/
abbrev Exn := Nat

/-- The loop of `onSignalEmited` when a call of a slot may throw: `call s` is
`none` when the slot object `s` returns and `some e` when it throws `e`. The
loop has no handler, so the first exception ends it. The result is the slot
objects called, in order, and the exception that left the loop, if any. -/
def invokeSlotsThrowing (call : SlotObjPtr → Option Exn) :
    List Connection → List SlotObjPtr × Option Exn
  | [] => ([], none)
  | tuple :: rest =>
    match call tuple.slotObj with
    | some e => ([tuple.slotObj], some e)
    | none =>
      let r := invokeSlotsThrowing call rest
      (tuple.slotObj :: r.1, r.2)

/-- The member function `SignalsSlotsManager::onSignalEmited` with slots that may
throw: the manager after the call (no member is written), the slot objects
called, and the exception that reaches the caller, if any. -/
def onSignalEmitedThrowing (call : SlotObjPtr → Option Exn) (m : SignalsSlotsManager)
    (signal : SignalPtr) : SignalsSlotsManager × List SlotObjPtr × Option Exn :=
  match m._signalsSlotsRegistery.find signal with
  | some v => (m, invokeSlotsThrowing call v)
  | none => (m, [], none)

/-- The loop of `~SignalsSlotsManager` over one vector: every slot object that
says it is heap-allocated is deleted. -/
def destructorLoop (isHeapAllocated : SlotObjPtr → Bool) :
    List Connection → List SlotObjPtr → List SlotObjPtr
  | [], del => del
  | tuple :: rest, del =>
    if isHeapAllocated tuple.slotObj = true then
      destructorLoop isHeapAllocated rest (del ++ [tuple.slotObj])
    else destructorLoop isHeapAllocated rest del

/-- The outer loop of `~SignalsSlotsManager` over the entries of the registry. -/
def destructorAll (isHeapAllocated : SlotObjPtr → Bool) :
    Registery → List SlotObjPtr → List SlotObjPtr
  | [], del => del
  | connection :: r, del =>
    destructorAll isHeapAllocated r (destructorLoop isHeapAllocated connection.2 del)

/-- The destructor `SignalsSlotsManager::~SignalsSlotsManager`, given the flag
`_heapAllocated` of every slot object. -/
def destructor (isHeapAllocated : SlotObjPtr → Bool) (m : SignalsSlotsManager) :
    SignalsSlotsManager :=
  { m with deleted := destructorAll isHeapAllocated m._signalsSlotsRegistery m.deleted }

/-- All the connections of the registry, entry after entry. -/
def allConnections : Registery → List Connection
  | [] => []
  | connection :: r => connection.2 ++ allConnections r

/-- The guard of `connectSignalSlot` (the `if` of the first statement), which
is evaluated before any `std::lock_guard` is constructed. -/
def connectSignalSlotGuard (m : SignalsSlotsManager) (c : ConnectCall) : Bool :=
  decide (c.connectionType = ConnectionType.Single)
    && checkIfSameConnectionExists m c.signal c.slotObj c.asSlot c.func

/-- The first critical section of `connectSignalSlot`: under the lock, the slot
object is recorded in the table of the function's type when `func != nullptr`. -/
def connectSignalSlotTable (m : SignalsSlotsManager) (c : ConnectCall) : SignalsSlotsManager :=
  if c.func.value ≠ 0 then
    let table := m._funcPtrToSlot c.func.ptrType ++ [c.slotObj]
    { m with _funcPtrToSlot := Function.update m._funcPtrToSlot c.func.ptrType table }
  else m

/-- The second critical section of `connectSignalSlot`: under the lock, the
tuple is appended to the vector of the signal. -/
def connectSignalSlotRegistery (m : SignalsSlotsManager) (c : ConnectCall) :
    SignalsSlotsManager :=
  let tuple : Connection := ⟨c.slotObj, c.asSlot, c.slotType, c.connectionType⟩
  { m with _signalsSlotsRegistery := m._signalsSlotsRegistery.emplaceBack c.signal tuple }

/-- Where a thread stands in its call of `connectSignalSlot`: before the
guard, before the first critical section, before the second, or returned. -/
inductive ConnectPc where
  | atGuard
  | atTable
  | atRegistery
  | returned
deriving DecidableEq

/-- One step of a thread that executes the call `c` and stands at `pc`, on the
shared manager `m`: the guard, or one whole critical section. -/
def connectStep (m : SignalsSlotsManager) (c : ConnectCall) (pc : ConnectPc) :
    SignalsSlotsManager × ConnectPc :=
  match pc with
  | ConnectPc.atGuard =>
    if connectSignalSlotGuard m c = true then (m, ConnectPc.returned)
    else (m, ConnectPc.atTable)
  | ConnectPc.atTable => (connectSignalSlotTable m c, ConnectPc.atRegistery)
  | ConnectPc.atRegistery => (connectSignalSlotRegistery m c, ConnectPc.returned)
  | ConnectPc.returned => (m, ConnectPc.returned)

/-- Two threads that execute the calls `c1` and `c2` of `connectSignalSlot` on
one manager, under a schedule: `false` lets the first thread take its next
step, `true` the second. The result is the manager and where each thread
stands at the end of the schedule. -/
def runTwoConnects (c1 c2 : ConnectCall) :
    SignalsSlotsManager × ConnectPc × ConnectPc → List Bool →
    SignalsSlotsManager × ConnectPc × ConnectPc
  | s, [] => s
  | (m, pc1, pc2), false :: schedule =>
    let r := connectStep m c1 pc1
    runTwoConnects c1 c2 (r.1, r.2, pc2) schedule
  | (m, pc1, pc2), true :: schedule =>
    let r := connectStep m c2 pc2
    runTwoConnects c1 c2 (r.1, pc1, r.2) schedule

end SignalsSlotsManager

/-- The record of one `new Slot<...>` made by a `connect` overload of
`SignalsSlots`: the address of the slot object and, for the member-function
overload, the receiver and the member function captured by its lambda (`0`
and `nullptr` for a callable). -/
structure Wrapper where
  slotObj : SlotObjPtr
  receiver : AsSlotPtr
  slot : FunctionPtr
deriving DecidableEq

/-- The process as the static class `SignalsSlots` sees it: the singleton
manager, and the slot objects made by `new` in its `connect` overloads so far
(oldest first), all of which were marked with `setHeapAllocated(true)`. -/
structure SignalsSlots where
  manager : SignalsSlotsManager
  created : List Wrapper

namespace SignalsSlots

/-- The process at its start: an empty manager, no slot object made. -/
def start : SignalsSlots :=
  { manager := SignalsSlotsManager.empty, created := [] }

/-- The addresses of the slot objects made by `new` so far. -/
def createdObjs (p : SignalsSlots) : List SlotObjPtr :=
  p.created.map Wrapper.slotObj

/-- The flag `SlotBase::isHeapAllocated` of a slot object: set for the slot
objects made by the `connect` overloads, clear for those of the application. -/
def isHeapAllocated (p : SignalsSlots) (slot : SlotObjPtr) : Bool :=
  decide (slot ∈ p.createdObjs)

/-- The internally-owned slot objects that are allocated now: made by `new`
and not deleted since. -/
def allocated (p : SignalsSlots) : List SlotObjPtr :=
  p.createdObjs.filter (fun s => decide (s ∉ p.manager.deleted))

/-- The slot objects made by binding a member function of `receiver`. -/
def wrappersOf (p : SignalsSlots) (receiver : AsSlotPtr) : List SlotObjPtr :=
  (p.created.filter (fun w => decide (w.receiver = receiver))).map Wrapper.slotObj

/-- The overloads of `SignalsSlots::connect` that take a slot object of the
application: `privateConnect(signal, slotObj, nullptr, nullptr, SlotObject, connectionType)`. -/
def connectSlotObj (p : SignalsSlots) (signal : SignalPtr) (slotObj : SlotObjPtr)
    (connectionType : ConnectionType) : SignalsSlots :=
  let m := p.manager.connectSignalSlot signal slotObj 0 FunctionPtr.null SlotType.SlotObject
    connectionType
  { p with manager := m }

/-- The overload of `SignalsSlots::connect` that takes a receiver and a member
function `slot`: a slot object is made by `new` (at the address `slotObj`),
marked heap-allocated, and passed to `privateConnect` with the receiver and
the member function. -/
def connectMemberFunction (p : SignalsSlots) (signal : SignalPtr) (receiver : AsSlotPtr)
    (slot : FunctionPtr) (connectionType : ConnectionType) (slotObj : SlotObjPtr) :
    SignalsSlots :=
  let m := p.manager.connectSignalSlot signal slotObj receiver slot SlotType.MemberFunction
    connectionType
  { manager := m, created := p.created ++ [⟨slotObj, receiver, slot⟩] }

/-- The overloads of `SignalsSlots::connect` that take a callable: a slot
object is made by `new` (at the address `slotObj`), marked heap-allocated, and
connected as a slot object with `Multi`. -/
def connectCallable (p : SignalsSlots) (signal : SignalPtr) (slotObj : SlotObjPtr) :
    SignalsSlots :=
  let m := p.manager.connectSignalSlot signal slotObj 0 FunctionPtr.null SlotType.SlotObject
    ConnectionType.Multi
  { manager := m, created := p.created ++ [⟨slotObj, 0, FunctionPtr.null⟩] }

/-- The overloads of `SignalsSlots::disconnect` that take a slot object:
`privateDisconnect(signal, slot, nullptr, nullptr, type)`. -/
def disconnectSlotObj (fuel : Nat) (p : SignalsSlots) (signal : SignalPtr) (slot : SlotObjPtr)
    (type : ConnectionType) : Option SignalsSlots :=
  (SignalsSlotsManager.disconnectSignalSlot fuel p.manager signal slot 0 FunctionPtr.null
    type).map (fun m => { p with manager := m })

/-- The overload of `SignalsSlots::disconnect` that takes a receiver and a
member function: `privateDisconnect(signal, nullptr, receiver, slot, type)`. -/
def disconnectMemberFunction (fuel : Nat) (p : SignalsSlots) (signal : SignalPtr)
    (receiver : AsSlotPtr) (slot : FunctionPtr) (type : ConnectionType) : Option SignalsSlots :=
  (SignalsSlotsManager.disconnectSignalSlot fuel p.manager signal 0 receiver slot
    type).map (fun m => { p with manager := m })

/-- The destructor `Signal::~Signal`. -/
def signalDestroyed (p : SignalsSlots) (signal : SignalPtr) : SignalsSlots :=
  { p with manager := p.manager.onSignalDestroyed signal }

/-- The destructor `Slot::~Slot`: the manager is told unless the slot object is
heap-allocated. -/
def slotDestroyed (p : SignalsSlots) (slot : SlotObjPtr) : SignalsSlots :=
  if p.isHeapAllocated slot = false then
    { p with manager := p.manager.onSlotDestroyed slot }
  else p

/-- The destructor `AsSlot::~AsSlot`. -/
def asSlotDestroyed (p : SignalsSlots) (receiver : AsSlotPtr) : SignalsSlots :=
  { p with manager := p.manager.onSlotDestroyedAsSlot receiver }

/-- The end of the process: `~SignalsSlotsManager` runs on the singleton. -/
def managerDestroyed (p : SignalsSlots) : SignalsSlots :=
  { p with manager := SignalsSlotsManager.destructor p.isHeapAllocated p.manager }

/-- The states of the process that the operations of `SignalsSlots` and the
destructors of signals, slot objects and receivers reach from the start. A
`new` returns an address that no slot object made before had and that no
connected slot object has; a slot object of the application is none of those
made by `new`; receivers and member functions are not null; a disconnect
counts when it returns. An emission changes nothing and is left out. -/
inductive Reachable : SignalsSlots → Prop where
  | start : Reachable start
  | connectSlotObj (p : SignalsSlots) (signal : SignalPtr) (slotObj : SlotObjPtr)
      (connectionType : ConnectionType) :
      Reachable p → slotObj ∉ p.createdObjs →
      Reachable (p.connectSlotObj signal slotObj connectionType)
  | connectMemberFunction (p : SignalsSlots) (signal : SignalPtr) (receiver : AsSlotPtr)
      (slot : FunctionPtr) (connectionType : ConnectionType) (slotObj : SlotObjPtr) :
      Reachable p → receiver ≠ 0 → slot.value ≠ 0 → slotObj ∉ p.createdObjs →
      slotObj ∉ (SignalsSlotsManager.allConnections
        p.manager._signalsSlotsRegistery).map Connection.slotObj →
      Reachable (p.connectMemberFunction signal receiver slot connectionType slotObj)
  | connectCallable (p : SignalsSlots) (signal : SignalPtr) (slotObj : SlotObjPtr) :
      Reachable p → slotObj ∉ p.createdObjs →
      slotObj ∉ (SignalsSlotsManager.allConnections
        p.manager._signalsSlotsRegistery).map Connection.slotObj →
      Reachable (p.connectCallable signal slotObj)
  | disconnectSlotObj (fuel : Nat) (p p1 : SignalsSlots) (signal : SignalPtr)
      (slot : SlotObjPtr) (type : ConnectionType) :
      Reachable p → p.disconnectSlotObj fuel signal slot type = some p1 → Reachable p1
  | disconnectMemberFunction (fuel : Nat) (p p1 : SignalsSlots) (signal : SignalPtr)
      (receiver : AsSlotPtr) (slot : FunctionPtr) (type : ConnectionType) :
      Reachable p → receiver ≠ 0 →
      p.disconnectMemberFunction fuel signal receiver slot type = some p1 → Reachable p1
  | signalDestroyed (p : SignalsSlots) (signal : SignalPtr) :
      Reachable p → Reachable (p.signalDestroyed signal)
  | slotDestroyed (p : SignalsSlots) (slot : SlotObjPtr) :
      Reachable p → Reachable (p.slotDestroyed slot)
  | asSlotDestroyed (p : SignalsSlots) (receiver : AsSlotPtr) :
      Reachable p → receiver ≠ 0 → Reachable (p.asSlotDestroyed receiver)

end SignalsSlots

namespace SignalsSlots

/-- The test "a `Single` connection without owner of the slot object `slot`". -/
def isSingleSlot (slot : SlotObjPtr) (c : Connection) : Bool :=
  decide (c.connectionType = ConnectionType.Single ∧ c.asSlot = 0 ∧ c.slotObj = slot)

/-- The test "the slot object `s` was made by binding a member function of
pointer type `ty`". -/
def boundType (p : SignalsSlots) (s : SlotObjPtr) (ty : Nat) : Bool :=
  p.created.any (fun w => decide (w.slotObj = s ∧ w.slot.ptrType = ty))

/-- The test "a `Single` connection of owner `receiver` whose wrapper was made
for a member function of pointer type `ty`". -/
def isSingleOwnerType (p : SignalsSlots) (receiver : AsSlotPtr) (ty : Nat) (c : Connection) :
    Bool :=
  decide (c.connectionType = ConnectionType.Single ∧ c.asSlot = receiver)
    && p.boundType c.slotObj ty

/-- The test "a `Single` connection of owner `receiver` whose wrapper was made
for the member function `func` of `receiver`". -/
def isSingleBinding (p : SignalsSlots) (receiver : AsSlotPtr) (func : FunctionPtr)
    (c : Connection) : Bool :=
  decide (c.connectionType = ConnectionType.Single ∧ c.asSlot = receiver
    ∧ (⟨c.slotObj, receiver, func⟩ : Wrapper) ∈ p.created)

/-- The invariant of the reachable states of the process. -/
structure Inv (p : SignalsSlots) : Prop where
  /-- A connection with an owner carries a slot object made for that owner, which is in the
  table of the pointer type of the member function it was made for. -/
  bound : ∀ c ∈ SignalsSlotsManager.allConnections p.manager._signalsSlotsRegistery,
    c.asSlot ≠ 0 →
    ∃ w ∈ p.created, w.slotObj = c.slotObj ∧ w.receiver = c.asSlot
      ∧ c.slotObj ∈ p.manager._funcPtrToSlot w.slot.ptrType
  /-- No two slot objects made by `new` have the same address. -/
  createdNodup : p.createdObjs.Nodup
  /-- A slot object made by `new` is in at most one connection. -/
  unique : (((SignalsSlotsManager.allConnections p.manager._signalsSlotsRegistery).map
    Connection.slotObj).filter (fun s => decide (s ∈ p.createdObjs))).Nodup
  /-- No connected slot object has been deleted. -/
  live : ∀ c ∈ SignalsSlotsManager.allConnections p.manager._signalsSlotsRegistery,
    c.slotObj ∉ p.manager.deleted
  /-- No slot object has been deleted twice. -/
  deletedNodup : p.manager.deleted.Nodup
  /-- Only slot objects made by `new` have been deleted. -/
  deletedCreated : ∀ s ∈ p.manager.deleted, s ∈ p.createdObjs
  /-- A vector holds at most one `Single` connection without owner per slot object. -/
  singleSlot : ∀ e ∈ p.manager._signalsSlotsRegistery, ∀ slot : SlotObjPtr,
    (e.2.filter (isSingleSlot slot)).length ≤ 1
  /-- A vector holds at most one `Single` connection per owner and pointer type. -/
  singleOwner : ∀ e ∈ p.manager._signalsSlotsRegistery, ∀ (receiver : AsSlotPtr) (ty : Nat),
    receiver ≠ 0 → (e.2.filter (p.isSingleOwnerType receiver ty)).length ≤ 1

end SignalsSlots

/-! ## The registry as a map -/

namespace Registery

theorem find_emplaceBack_same (r : Registery) (signal : SignalPtr) (tuple : Connection) :
    (r.emplaceBack signal tuple).find signal = some ((r.find signal).getD [] ++ [tuple]) := by
  induction r with
  | nil => simp [emplaceBack, find]
  | cons kv r ih =>
    obtain ⟨k, v⟩ := kv
    by_cases h : k = signal
    · simp [emplaceBack, find, h]
    · simp [emplaceBack, find, h, ih]

theorem find_emplaceBack_other (r : Registery) (signal other : SignalPtr) (tuple : Connection)
    (h : other ≠ signal) : (r.emplaceBack signal tuple).find other = r.find other := by
  induction r with
  | nil => simp [emplaceBack, find, Ne.symm h]
  | cons kv r ih =>
    obtain ⟨k, v⟩ := kv
    by_cases hk : k = signal
    · subst hk
      simp [emplaceBack, find, Ne.symm h]
    · by_cases ho : k = other
      · subst ho
        simp [emplaceBack, find, hk]
      · simp [emplaceBack, find, hk, ho, ih]

theorem find_assign_same (r : Registery) (signal : SignalPtr) (v : List Connection) :
    (r.assign signal v).find signal = (r.find signal).map (fun _ => v) := by
  induction r with
  | nil => simp [assign, find]
  | cons kv r ih =>
    obtain ⟨k, w⟩ := kv
    by_cases h : k = signal
    · simp [assign, find, h]
    · simp [assign, find, h, ih]

theorem find_assign_other (r : Registery) (signal other : SignalPtr) (v : List Connection)
    (h : other ≠ signal) : (r.assign signal v).find other = r.find other := by
  induction r with
  | nil => simp [assign, find]
  | cons kv r ih =>
    obtain ⟨k, w⟩ := kv
    by_cases hk : k = signal
    · subst hk
      simp [assign, find, Ne.symm h]
    · by_cases ho : k = other
      · subst ho
        simp [assign, find, hk]
      · simp [assign, find, hk, ho, ih]

theorem assign_self (r : Registery) (signal : SignalPtr) (v : List Connection)
    (h : r.find signal = some v) : r.assign signal v = r := by
  induction r with
  | nil => simp [assign]
  | cons kv r ih =>
    obtain ⟨k, w⟩ := kv
    by_cases hk : k = signal
    · simp [find, hk] at h
      simp [assign, hk, h]
    · simp [find, hk] at h
      simp [assign, hk, ih h]

theorem find_erase_same (r : Registery) (signal : SignalPtr) :
    (r.erase signal).find signal = none := by
  induction r with
  | nil => simp [erase, find]
  | cons kv r ih =>
    obtain ⟨k, v⟩ := kv
    by_cases h : k = signal
    · simpa [erase, List.filter_cons, h] using ih
    · simpa [erase, List.filter_cons, h, find] using ih

theorem find_erase_other (r : Registery) (signal other : SignalPtr) (h : other ≠ signal) :
    (r.erase signal).find other = r.find other := by
  induction r with
  | nil => simp [erase, find]
  | cons kv r ih =>
    obtain ⟨k, v⟩ := kv
    by_cases hk : k = signal
    · subst hk
      simpa [erase, List.filter_cons, find, Ne.symm h] using ih
    · by_cases ho : k = other
      · subst ho
        simp [erase, List.filter_cons, hk, find]
      · simpa [erase, List.filter_cons, hk, find, ho] using ih

theorem find_map_values (r : Registery) (f : List Connection → List Connection)
    (signal : SignalPtr) :
    Registery.find (r.map (fun connection => (connection.1, f connection.2))) signal
      = (r.find signal).map f := by
  induction r with
  | nil => simp [find]
  | cons kv r ih =>
    obtain ⟨k, v⟩ := kv
    by_cases h : k = signal
    · simp [find, h]
    · simp [find, h, ih]

end Registery

/-! ## Connect and emit -/

namespace SignalsSlotsManager

theorem invokeSlots_eq_map (v : List Connection) :
    invokeSlots v = v.map Connection.slotObj := by
  induction v with
  | nil => rfl
  | cons tuple rest ih => simp [invokeSlots, ih]

theorem onSignalEmited_eq (m : SignalsSlotsManager) (signal : SignalPtr) :
    onSignalEmited m signal
      = ((m._signalsSlotsRegistery.find signal).getD []).map Connection.slotObj := by
  unfold onSignalEmited
  cases m._signalsSlotsRegistery.find signal with
  | none => rfl
  | some v => simp [invokeSlots_eq_map]

theorem connectSignalSlot_of_dup (m : SignalsSlotsManager) (signal : SignalPtr)
    (slotObj : SlotObjPtr) (asSlot : AsSlotPtr) (func : FunctionPtr) (slotType : SlotType)
    (connectionType : ConnectionType)
    (h : connectionType = ConnectionType.Single
          ∧ checkIfSameConnectionExists m signal slotObj asSlot func = true) :
    connectSignalSlot m signal slotObj asSlot func slotType connectionType = m := by
  unfold connectSignalSlot
  rw [if_pos h]

theorem connectSignalSlot_registery (m : SignalsSlotsManager) (signal : SignalPtr)
    (slotObj : SlotObjPtr) (asSlot : AsSlotPtr) (func : FunctionPtr) (slotType : SlotType)
    (connectionType : ConnectionType)
    (h : ¬ (connectionType = ConnectionType.Single
          ∧ checkIfSameConnectionExists m signal slotObj asSlot func = true)) :
    (connectSignalSlot m signal slotObj asSlot func slotType connectionType)._signalsSlotsRegistery
      = m._signalsSlotsRegistery.emplaceBack signal ⟨slotObj, asSlot, slotType, connectionType⟩ := by
  unfold connectSignalSlot
  rw [if_neg h]
  by_cases hf : func.value = 0 <;> simp [hf]

theorem connectSignalSlot_funcPtrToSlot (m : SignalsSlotsManager) (signal : SignalPtr)
    (slotObj : SlotObjPtr) (asSlot : AsSlotPtr) (func : FunctionPtr) (slotType : SlotType)
    (connectionType : ConnectionType)
    (h : ¬ (connectionType = ConnectionType.Single
          ∧ checkIfSameConnectionExists m signal slotObj asSlot func = true))
    (hf : func.value ≠ 0) :
    (connectSignalSlot m signal slotObj asSlot func slotType connectionType)._funcPtrToSlot
      = Function.update m._funcPtrToSlot func.ptrType (m._funcPtrToSlot func.ptrType ++ [slotObj]) := by
  unfold connectSignalSlot
  rw [if_neg h]
  simp [hf]

theorem connectSignalSlot_find_same (m : SignalsSlotsManager) (signal : SignalPtr)
    (slotObj : SlotObjPtr) (asSlot : AsSlotPtr) (func : FunctionPtr) (slotType : SlotType)
    (connectionType : ConnectionType)
    (h : ¬ (connectionType = ConnectionType.Single
          ∧ checkIfSameConnectionExists m signal slotObj asSlot func = true)) :
    (connectSignalSlot m signal slotObj asSlot func slotType
        connectionType)._signalsSlotsRegistery.find signal
      = some ((m._signalsSlotsRegistery.find signal).getD []
                ++ [⟨slotObj, asSlot, slotType, connectionType⟩]) := by
  rw [connectSignalSlot_registery m signal slotObj asSlot func slotType connectionType h,
    Registery.find_emplaceBack_same]

theorem connectSignalSlot_find_other (m : SignalsSlotsManager) (signal other : SignalPtr)
    (slotObj : SlotObjPtr) (asSlot : AsSlotPtr) (func : FunctionPtr) (slotType : SlotType)
    (connectionType : ConnectionType) (ho : other ≠ signal) :
    (connectSignalSlot m signal slotObj asSlot func slotType
        connectionType)._signalsSlotsRegistery.find other
      = m._signalsSlotsRegistery.find other := by
  by_cases h : connectionType = ConnectionType.Single
          ∧ checkIfSameConnectionExists m signal slotObj asSlot func = true
  · rw [connectSignalSlot_of_dup m signal slotObj asSlot func slotType connectionType h]
  · rw [connectSignalSlot_registery m signal slotObj asSlot func slotType connectionType h,
      Registery.find_emplaceBack_other _ _ _ _ ho]

theorem onSignalEmited_run (m : SignalsSlotsManager) (signal : SignalPtr) (c : ConnectCall) :
    onSignalEmited (c.run m) signal
      = onSignalEmited m signal ++
          (if c.signal = signal ∧
              ¬ (c.connectionType = ConnectionType.Single
                  ∧ checkIfSameConnectionExists m c.signal c.slotObj c.asSlot c.func = true)
            then [c.slotObj] else []) := by
  by_cases hs : c.signal = signal
  · by_cases h : c.connectionType = ConnectionType.Single
          ∧ checkIfSameConnectionExists m c.signal c.slotObj c.asSlot c.func = true
    · rw [if_neg (fun hc => hc.2 h)]
      simp only [ConnectCall.run]
      rw [connectSignalSlot_of_dup m _ _ _ _ _ _ h]
      simp
    · rw [if_pos ⟨hs, h⟩, onSignalEmited_eq, onSignalEmited_eq]
      simp only [ConnectCall.run]
      rw [← hs, connectSignalSlot_find_same m _ _ _ _ _ _ h]
      simp
  · rw [if_neg (fun hc => hs hc.1), onSignalEmited_eq, onSignalEmited_eq]
    simp only [ConnectCall.run]
    rw [connectSignalSlot_find_other m _ _ _ _ _ _ _ (Ne.symm hs)]
    simp

theorem onSignalEmited_connectAll (signal : SignalPtr) (calls : List ConnectCall) :
    ∀ m : SignalsSlotsManager,
      onSignalEmited (connectAll m calls) signal
        = onSignalEmited m signal ++ insertedOn signal m calls := by
  induction calls with
  | nil => intro m; simp [connectAll, insertedOn]
  | cons c calls ih =>
    intro m
    have hstep : connectAll m (c :: calls) = connectAll (c.run m) calls := by
      simp [connectAll]
    rw [hstep, ih, onSignalEmited_run]
    by_cases h : c.signal = signal ∧
        ¬ (c.connectionType = ConnectionType.Single
            ∧ checkIfSameConnectionExists m c.signal c.slotObj c.asSlot c.func = true)
    · rw [if_pos h]
      simp only [insertedOn]
      rw [if_pos h]
      simp
    · rw [if_neg h]
      simp only [insertedOn]
      rw [if_neg h]
      simp

theorem insertedOn_multi (signal : SignalPtr) (calls : List ConnectCall)
    (hm : ∀ c ∈ calls, c.connectionType = ConnectionType.Multi) :
    ∀ m : SignalsSlotsManager,
      insertedOn signal m calls
        = (calls.filter (fun c => decide (c.signal = signal))).map ConnectCall.slotObj := by
  induction calls with
  | nil => intro m; simp [insertedOn]
  | cons c calls ih =>
    intro m
    have hc : c.connectionType = ConnectionType.Multi := hm c (List.mem_cons_self _ _)
    have ih1 := ih (fun d hd => hm d (List.mem_cons_of_mem _ hd)) (c.run m)
    by_cases hs : c.signal = signal
    · simp [insertedOn, hs, hc, ih1]
    · simp [insertedOn, hs, ih1]

end SignalsSlotsManager

namespace SignalsSlotsManager

theorem checkIfSameConnectionExists_eq (m : SignalsSlotsManager) (signal : SignalPtr)
    (slotObj : SlotObjPtr) (asSlot : AsSlotPtr) (func : FunctionPtr) :
    checkIfSameConnectionExists m signal slotObj asSlot func
      = if asSlot = 0 then
          (connections m signal).any (fun tuple => decide (slotObj = tuple.slotObj))
        else
          (connections m signal).any (sameOwnerInTable asSlot (m._funcPtrToSlot func.ptrType)) := by
  unfold checkIfSameConnectionExists connections
  cases m._signalsSlotsRegistery.find signal <;> simp

theorem connections_connect_same (m : SignalsSlotsManager) (signal : SignalPtr)
    (slotObj : SlotObjPtr) (asSlot : AsSlotPtr) (func : FunctionPtr) (slotType : SlotType)
    (connectionType : ConnectionType)
    (h : ¬ (connectionType = ConnectionType.Single
          ∧ checkIfSameConnectionExists m signal slotObj asSlot func = true)) :
    connections (connectSignalSlot m signal slotObj asSlot func slotType connectionType) signal
      = connections m signal ++ [⟨slotObj, asSlot, slotType, connectionType⟩] := by
  unfold connections
  rw [connectSignalSlot_find_same m signal slotObj asSlot func slotType connectionType h]
  rfl

theorem onSignalEmited_eq_connections (m : SignalsSlotsManager) (signal : SignalPtr) :
    onSignalEmited m signal = (connections m signal).map Connection.slotObj :=
  onSignalEmited_eq m signal

theorem connections_connectAll_multi (signal : SignalPtr) (asSlot : AsSlotPtr)
    (func : FunctionPtr) (slotType : SlotType) (ws : List SlotObjPtr) :
    ∀ m : SignalsSlotsManager,
      connections (connectAll m (ws.map (fun w =>
          (⟨signal, w, asSlot, func, slotType, ConnectionType.Multi⟩ : ConnectCall)))) signal
        = connections m signal
            ++ ws.map (fun w => (⟨w, asSlot, slotType, ConnectionType.Multi⟩ : Connection)) := by
  induction ws with
  | nil => intro m; simp [connectAll]
  | cons w ws ih =>
    intro m
    simp only [List.map_cons, connectAll, List.foldl_cons]
    have h := ih (ConnectCall.run m ⟨signal, w, asSlot, func, slotType, ConnectionType.Multi⟩)
    simp only [connectAll] at h
    rw [h]
    simp only [ConnectCall.run]
    rw [connections_connect_same m signal w asSlot func slotType ConnectionType.Multi
      (by simp)]
    simp

end SignalsSlotsManager

/-! ## Emission order, idempotent and additive connects -/

namespace SignalsSlotsManager

/-- C1: `onSignalEmited` on a signal calls the slot objects of the connections
in the signal's vector, one call per connection, in the order of the vector,
and calls nothing when the signal has no entry; after any sequence of
`connectSignalSlot` calls the slot objects called are those called before,
followed by the slot objects of the calls on that signal that inserted a
connection, in the order of the calls (all the calls on that signal when they
are all `Multi`). -/
theorem emit_invokes_connections_in_order (m : SignalsSlotsManager) (signal : SignalPtr) :
    (∀ v, m._signalsSlotsRegistery.find signal = some v →
        onSignalEmited m signal = v.map Connection.slotObj) ∧
    (m._signalsSlotsRegistery.find signal = none → onSignalEmited m signal = []) ∧
    (∀ calls : List ConnectCall,
        onSignalEmited (connectAll m calls) signal
          = onSignalEmited m signal ++ insertedOn signal m calls) ∧
    (∀ calls : List ConnectCall,
        onSignalEmited (connectAll empty calls) signal = insertedOn signal empty calls) ∧
    (∀ calls : List ConnectCall,
        (∀ c ∈ calls, c.connectionType = ConnectionType.Multi) →
        onSignalEmited (connectAll m calls) signal
          = onSignalEmited m signal
              ++ (calls.filter (fun c => decide (c.signal = signal))).map ConnectCall.slotObj) := by
  refine ⟨?_, ?_, ?_, ?_, ?_⟩
  · intro v hv
    rw [onSignalEmited_eq, hv]
    rfl
  · intro hv
    rw [onSignalEmited_eq, hv]
    rfl
  · intro calls
    exact onSignalEmited_connectAll signal calls m
  · intro calls
    rw [onSignalEmited_connectAll signal calls empty]
    simp [onSignalEmited, empty, Registery.find]
  · intro calls hm
    rw [onSignalEmited_connectAll signal calls m, insertedOn_multi signal calls hm m]

/-- C1, at a concrete input: three slot objects connected to signal `1` of the
empty manager (the second one twice with `Single`) are called in the order of
the connects, the repeated one once. -/
theorem emit_invokes_connections_in_order_witness :
    onSignalEmited (connectAll empty
        [⟨1, 10, 0, FunctionPtr.null, SlotType.SlotObject, ConnectionType.Multi⟩,
         ⟨1, 11, 0, FunctionPtr.null, SlotType.SlotObject, ConnectionType.Single⟩,
         ⟨2, 13, 0, FunctionPtr.null, SlotType.SlotObject, ConnectionType.Multi⟩,
         ⟨1, 11, 0, FunctionPtr.null, SlotType.SlotObject, ConnectionType.Single⟩,
         ⟨1, 12, 0, FunctionPtr.null, SlotType.SlotObject, ConnectionType.Multi⟩]) 1
      = [10, 11, 12] := by
  rw [(emit_invokes_connections_in_order empty 1).2.2.2.1]
  decide

/-- C3: `N` connects with `Multi` of one binding to a signal (the slot objects
`ws` passed by the `N` calls, all with the same owner, function and slot type)
append `N` connections to the tail of the signal's vector, in the order of the
calls: the vector grows by `N`, the earlier connections keep their places, an
emission calls the slot objects called before followed by `ws`, so it calls
the slot objects of the binding `N` more times than before; and `N` connects
of one and the same slot object make it called `N` more times. -/
theorem multi_connect_additive (m : SignalsSlotsManager) (signal : SignalPtr)
    (asSlot : AsSlotPtr) (func : FunctionPtr) (slotType : SlotType) (ws : List SlotObjPtr) :
    connections (connectAll m (ws.map (fun w =>
        (⟨signal, w, asSlot, func, slotType, ConnectionType.Multi⟩ : ConnectCall)))) signal
      = connections m signal
          ++ ws.map (fun w => (⟨w, asSlot, slotType, ConnectionType.Multi⟩ : Connection)) ∧
    (connections (connectAll m (ws.map (fun w =>
        (⟨signal, w, asSlot, func, slotType, ConnectionType.Multi⟩ : ConnectCall)))) signal).length
      = (connections m signal).length + ws.length ∧
    onSignalEmited (connectAll m (ws.map (fun w =>
        (⟨signal, w, asSlot, func, slotType, ConnectionType.Multi⟩ : ConnectCall)))) signal
      = onSignalEmited m signal ++ ws ∧
    (onSignalEmited (connectAll m (ws.map (fun w =>
        (⟨signal, w, asSlot, func, slotType, ConnectionType.Multi⟩ : ConnectCall)))) signal).countP
        (fun w => decide (w ∈ ws))
      = (onSignalEmited m signal).countP (fun w => decide (w ∈ ws)) + ws.length ∧
    (∀ (N : Nat) (slotObj : SlotObjPtr), ws = List.replicate N slotObj →
      (onSignalEmited (connectAll m (ws.map (fun w =>
        (⟨signal, w, asSlot, func, slotType, ConnectionType.Multi⟩ : ConnectCall)))) signal).count
          slotObj
        = (onSignalEmited m signal).count slotObj + N) := by
  have hc := connections_connectAll_multi signal asSlot func slotType ws m
  have he : onSignalEmited (connectAll m (ws.map (fun w =>
        (⟨signal, w, asSlot, func, slotType, ConnectionType.Multi⟩ : ConnectCall)))) signal
      = onSignalEmited m signal ++ ws := by
    rw [onSignalEmited_eq_connections, onSignalEmited_eq_connections, hc]
    simp [Function.comp_def]
  refine ⟨hc, ?_, he, ?_, ?_⟩
  · rw [hc]
    simp
  · rw [he, List.countP_append]
    congr 1
    rw [List.countP_eq_length]
    intro w hw
    simpa using hw
  · intro N slotObj hN
    rw [he, List.count_append, hN, List.count_replicate_self]

end SignalsSlotsManager

namespace SignalsSlotsManager

/-- After a `Single` connect, `checkIfSameConnectionExists` holds for the same
signal, owner and function type, and for the same slot object when there is no
owner (for a member function: one with a non-null pointer). -/
theorem check_after_single_connect (m : SignalsSlotsManager) (signal : SignalPtr)
    (slotObj slotObj2 : SlotObjPtr) (asSlot : AsSlotPtr) (func : FunctionPtr)
    (slotType : SlotType)
    (hb : (asSlot = 0 ∧ slotObj2 = slotObj) ∨ (asSlot ≠ 0 ∧ func.value ≠ 0)) :
    checkIfSameConnectionExists
      (connectSignalSlot m signal slotObj asSlot func slotType ConnectionType.Single)
      signal slotObj2 asSlot func = true := by
  by_cases h : ConnectionType.Single = ConnectionType.Single
          ∧ checkIfSameConnectionExists m signal slotObj asSlot func = true
  · rw [connectSignalSlot_of_dup m signal slotObj asSlot func slotType _ h]
    rcases hb with ⟨_, h2⟩ | ⟨ha, _⟩
    · rw [h2]; exact h.2
    · have := h.2
      rw [checkIfSameConnectionExists_eq, if_neg ha] at this ⊢
      exact this
  · rw [checkIfSameConnectionExists_eq,
      connections_connect_same m signal slotObj asSlot func slotType _ h]
    rcases hb with ⟨ha, h2⟩ | ⟨ha, hf⟩
    · rw [if_pos ha, h2]
      simp
    · rw [if_neg ha, connectSignalSlot_funcPtrToSlot m signal slotObj asSlot func slotType _ h hf]
      simp [sameOwnerInTable]

/-- C2 (as amended): connecting one binding to one signal twice with `Single`
(the same slot object without owner, or a member function, non-null, of the
same receiver, each call with a wrapper of its own) leaves the whole manager
as it was after the first connect. Starting from a signal for which the
duplicate check fails (no connection of that slot object, respectively no
connection of the receiver whose wrapper is in the table of the function's
pointer type), the two connects append exactly one connection, the first
call's, and an emission calls what it called before and then that slot object,
once when the slot object was not in the vector before. -/
theorem single_connect_idempotent (m : SignalsSlotsManager) (signal : SignalPtr)
    (slotObj slotObj2 : SlotObjPtr) (asSlot : AsSlotPtr) (func : FunctionPtr)
    (slotType : SlotType)
    (hb : (asSlot = 0 ∧ slotObj2 = slotObj) ∨ (asSlot ≠ 0 ∧ func.value ≠ 0)) :
    connectSignalSlot
        (connectSignalSlot m signal slotObj asSlot func slotType ConnectionType.Single)
        signal slotObj2 asSlot func slotType ConnectionType.Single
      = connectSignalSlot m signal slotObj asSlot func slotType ConnectionType.Single ∧
    (checkIfSameConnectionExists m signal slotObj asSlot func = false →
      connections (connectSignalSlot
          (connectSignalSlot m signal slotObj asSlot func slotType ConnectionType.Single)
          signal slotObj2 asSlot func slotType ConnectionType.Single) signal
        = connections m signal ++ [⟨slotObj, asSlot, slotType, ConnectionType.Single⟩] ∧
      onSignalEmited (connectSignalSlot
          (connectSignalSlot m signal slotObj asSlot func slotType ConnectionType.Single)
          signal slotObj2 asSlot func slotType ConnectionType.Single) signal
        = onSignalEmited m signal ++ [slotObj] ∧
      (slotObj ∉ onSignalEmited m signal →
        (onSignalEmited (connectSignalSlot
          (connectSignalSlot m signal slotObj asSlot func slotType ConnectionType.Single)
          signal slotObj2 asSlot func slotType ConnectionType.Single) signal).count slotObj
          = 1)) := by
  have h2 := connectSignalSlot_of_dup
    (connectSignalSlot m signal slotObj asSlot func slotType ConnectionType.Single)
    signal slotObj2 asSlot func slotType ConnectionType.Single
    ⟨rfl, check_after_single_connect m signal slotObj slotObj2 asSlot func slotType hb⟩
  refine ⟨h2, ?_⟩
  intro hno
  rw [h2]
  have hc := connections_connect_same m signal slotObj asSlot func slotType
    ConnectionType.Single (by simp [hno])
  have he : onSignalEmited
      (connectSignalSlot m signal slotObj asSlot func slotType ConnectionType.Single) signal
        = onSignalEmited m signal ++ [slotObj] := by
    rw [onSignalEmited_eq_connections, onSignalEmited_eq_connections, hc]
    simp
  refine ⟨hc, he, ?_⟩
  intro hfresh
  rw [he, List.count_append, List.count_eq_zero_of_not_mem hfresh]
  simp

/-- C2 (as amended), at a concrete input: receiver `5` binds a member function
(type `1`, pointer `200`) to signal `1` twice with `Single`, with the wrappers
`11` and `12`; one connection is registered and one slot object is called. -/
theorem single_connect_idempotent_witness :
    connections (connectSignalSlot
        (connectSignalSlot empty 1 11 5 ⟨1, 200⟩ SlotType.MemberFunction ConnectionType.Single)
        1 12 5 ⟨1, 200⟩ SlotType.MemberFunction ConnectionType.Single) 1
      = [⟨11, 5, SlotType.MemberFunction, ConnectionType.Single⟩] ∧
    onSignalEmited (connectSignalSlot
        (connectSignalSlot empty 1 11 5 ⟨1, 200⟩ SlotType.MemberFunction ConnectionType.Single)
        1 12 5 ⟨1, 200⟩ SlotType.MemberFunction ConnectionType.Single) 1 = [11] := by
  have h := (single_connect_idempotent empty 1 11 12 5 ⟨1, 200⟩ SlotType.MemberFunction
    (Or.inr ⟨by decide, by decide⟩)).2 (by decide)
  exact ⟨h.1, h.2.1⟩

/-- C2 as stated fails: signal `1` holds one connection only, made for
receiver `5` and member function `g` (type `1`, pointer `100`, wrapper `10`),
so it is without the binding of the other member function `f` (same type `1`,
pointer `200`) of receiver `5`. After `f` is connected twice with `Single`
(wrappers `11` and `12`) the vector of the signal is what it was: no
connection was registered for `f`, and an emission calls the wrapper of `g`
only, neither wrapper of `f`. -/
theorem single_connect_twice_counterexample :
    connections (connectSignalSlot empty 1 10 5 ⟨1, 100⟩ SlotType.MemberFunction
        ConnectionType.Multi) 1
      = [⟨10, 5, SlotType.MemberFunction, ConnectionType.Multi⟩] ∧
    connections (connectSignalSlot (connectSignalSlot
        (connectSignalSlot empty 1 10 5 ⟨1, 100⟩ SlotType.MemberFunction ConnectionType.Multi)
        1 11 5 ⟨1, 200⟩ SlotType.MemberFunction ConnectionType.Single)
        1 12 5 ⟨1, 200⟩ SlotType.MemberFunction ConnectionType.Single) 1
      = [⟨10, 5, SlotType.MemberFunction, ConnectionType.Multi⟩] ∧
    onSignalEmited (connectSignalSlot (connectSignalSlot
        (connectSignalSlot empty 1 10 5 ⟨1, 100⟩ SlotType.MemberFunction ConnectionType.Multi)
        1 11 5 ⟨1, 200⟩ SlotType.MemberFunction ConnectionType.Single)
        1 12 5 ⟨1, 200⟩ SlotType.MemberFunction ConnectionType.Single) 1 = [10] ∧
    ((onSignalEmited (connectSignalSlot (connectSignalSlot
        (connectSignalSlot empty 1 10 5 ⟨1, 100⟩ SlotType.MemberFunction ConnectionType.Multi)
        1 11 5 ⟨1, 200⟩ SlotType.MemberFunction ConnectionType.Single)
        1 12 5 ⟨1, 200⟩ SlotType.MemberFunction ConnectionType.Single) 1).countP
          (fun w => decide (w = 11 ∨ w = 12))) = 0 := by
  decide

end SignalsSlotsManager

/-! ## Disconnect by slot object -/

namespace SignalsSlotsManager

theorem disconnectSlotLoop_multi (slot : SlotObjPtr) (v : List Connection) :
    disconnectSlotLoop slot ConnectionType.Multi v
      = v.filter (fun tuple => decide (tuple.slotObj ≠ slot)) := by
  induction v with
  | nil => rfl
  | cons tuple rest ih =>
    by_cases h : tuple.slotObj = slot
    · simp [disconnectSlotLoop, h, ih]
    · simp [disconnectSlotLoop, h, ih]

theorem disconnectSlotLoop_single (slot : SlotObjPtr) (v : List Connection) :
    disconnectSlotLoop slot ConnectionType.Single v
      = v.eraseP (fun tuple => decide (tuple.slotObj = slot)) := by
  induction v with
  | nil => rfl
  | cons tuple rest ih =>
    by_cases h : tuple.slotObj = slot
    · simp [disconnectSlotLoop, h]
    · simp [disconnectSlotLoop, h, ih]

theorem disconnectSlotLoop_of_absent (slot : SlotObjPtr) (type : ConnectionType)
    (v : List Connection) (h : ∀ tuple ∈ v, tuple.slotObj ≠ slot) :
    disconnectSlotLoop slot type v = v := by
  induction v with
  | nil => rfl
  | cons tuple rest ih =>
    have h1 : tuple.slotObj ≠ slot := h tuple (List.mem_cons_self _ _)
    simp [disconnectSlotLoop, h1, ih (fun t ht => h t (List.mem_cons_of_mem _ ht))]

theorem disconnectSlotLoop_sublist (slot : SlotObjPtr) (type : ConnectionType)
    (v : List Connection) : (disconnectSlotLoop slot type v).Sublist v := by
  cases type with
  | Multi => rw [disconnectSlotLoop_multi]; exact List.filter_sublist v
  | Single => rw [disconnectSlotLoop_single]; exact List.eraseP_sublist v

/-- C4: `disconnectSignalSlot` with `asSlot == nullptr` returns; with `Multi`
the vector of the signal becomes the old one without the connections whose
slot object is `slot`, with `Single` the old one without the first of them;
the connections left keep their order, the vector of every other signal, the
tables and the deletion log are as before, and nothing changes when no
connection of the signal has slot object `slot`. -/
theorem disconnect_by_slot (fuel : Nat) (m : SignalsSlotsManager) (signal : SignalPtr)
    (slot : SlotObjPtr) (func : FunctionPtr) (type : ConnectionType) :
    ∃ m1, disconnectSignalSlot fuel m signal slot 0 func type = some m1 ∧
      m1._signalsSlotsRegistery.find signal
        = (m._signalsSlotsRegistery.find signal).map (fun v =>
            match type with
            | ConnectionType.Multi => v.filter (fun tuple => decide (tuple.slotObj ≠ slot))
            | ConnectionType.Single => v.eraseP (fun tuple => decide (tuple.slotObj = slot))) ∧
      (connections m1 signal).Sublist (connections m signal) ∧
      (∀ other, other ≠ signal →
        m1._signalsSlotsRegistery.find other = m._signalsSlotsRegistery.find other) ∧
      m1._funcPtrToSlot = m._funcPtrToSlot ∧ m1.deleted = m.deleted ∧
      ((∀ tuple ∈ connections m signal, tuple.slotObj ≠ slot) → m1 = m) := by
  unfold disconnectSignalSlot
  rw [if_pos rfl]
  cases hfind : m._signalsSlotsRegistery.find signal with
  | none =>
    refine ⟨m, rfl, ?_, List.Sublist.refl _, fun _ _ => rfl, rfl, rfl, fun _ => rfl⟩
    simp [hfind]
  | some v =>
    refine ⟨_, rfl, ?_, ?_, ?_, rfl, rfl, ?_⟩
    · simp only [Registery.find_assign_same, hfind, Option.map_some']
      cases type with
      | Multi => simp [disconnectSlotLoop_multi]
      | Single => simp [disconnectSlotLoop_single]
    · simp only [connections, Registery.find_assign_same, hfind, Option.map_some',
        Option.getD_some]
      exact disconnectSlotLoop_sublist slot type v
    · intro other ho
      exact Registery.find_assign_other _ _ _ _ ho
    · intro habs
      have hv : disconnectSlotLoop slot type v = v :=
        disconnectSlotLoop_of_absent slot type v (by simpa [connections, hfind] using habs)
      simp only [hv, Registery.assign_self _ _ _ hfind]

/-- C4, the scenario of the specification: the slot objects `10` and `11` are
connected to signal `1` with `Multi`; an emission calls `10` then `11`; after
`10` is disconnected an emission calls `11` only. -/
theorem disconnect_by_slot_scenario :
    onSignalEmited (connectAll empty
        [⟨1, 10, 0, FunctionPtr.null, SlotType.SlotObject, ConnectionType.Multi⟩,
         ⟨1, 11, 0, FunctionPtr.null, SlotType.SlotObject, ConnectionType.Multi⟩]) 1
      = [10, 11] ∧
    (disconnectSignalSlot 0 (connectAll empty
        [⟨1, 10, 0, FunctionPtr.null, SlotType.SlotObject, ConnectionType.Multi⟩,
         ⟨1, 11, 0, FunctionPtr.null, SlotType.SlotObject, ConnectionType.Multi⟩])
        1 10 0 FunctionPtr.null ConnectionType.Multi).map (fun m1 => onSignalEmited m1 1)
      = some [11] := by
  obtain ⟨m1, h1, h2, _⟩ := disconnect_by_slot 0 (connectAll empty
        [⟨1, 10, 0, FunctionPtr.null, SlotType.SlotObject, ConnectionType.Multi⟩,
         ⟨1, 11, 0, FunctionPtr.null, SlotType.SlotObject, ConnectionType.Multi⟩])
        1 10 FunctionPtr.null ConnectionType.Multi
  refine ⟨by decide, ?_⟩
  rw [h1, Option.map_some', onSignalEmited_eq, h2]
  decide

end SignalsSlotsManager

/-! ## Disconnect by owner and member function -/

namespace SignalsSlotsManager

theorem disconnectOwnerLoop_nil (asSlot : AsSlotPtr) (type : ConnectionType) (fuel : Nat)
    (kept : List Connection) (table del : List SlotObjPtr) :
    disconnectOwnerLoop asSlot type fuel kept [] table del = some (kept, table, del) := by
  cases fuel <;> rfl

/-- The loop of the owner branch never ends once the iterator stands on a
connection of the owner whose slot object is not in the table. -/
theorem disconnectOwnerLoop_stuck (asSlot : AsSlotPtr) (type : ConnectionType)
    (kept : List Connection) (tuple : Connection) (rest : List Connection)
    (table del : List SlotObjPtr) (ho : tuple.asSlot = asSlot) (ht : tuple.slotObj ∉ table) :
    ∀ fuel, disconnectOwnerLoop asSlot type fuel kept (tuple :: rest) table del = none := by
  intro fuel
  induction fuel with
  | zero => rfl
  | succ fuel ih =>
    rw [disconnectOwnerLoop, if_pos ho, if_neg ht]
    exact ih

/-- What the loop of the owner branch gives when it ends: the elements before
the iterator are kept, and from the rest only connections of the owner whose
slot object is in the table are dropped (`q` is any test that holds of them). -/
theorem disconnectOwnerLoop_frame (asSlot : AsSlotPtr) (type : ConnectionType)
    (q : Connection → Bool) :
    ∀ (fuel : Nat) (kept rest : List Connection) (table del : List SlotObjPtr)
      (v1 : List Connection) (table1 del1 : List SlotObjPtr),
      (∀ c : Connection, c.asSlot = asSlot → c.slotObj ∈ table → q c = true) →
      disconnectOwnerLoop asSlot type fuel kept rest table del = some (v1, table1, del1) →
      ∃ rest1, v1 = kept ++ rest1 ∧ rest1.Sublist rest ∧
        rest1.filter (fun c => !q c) = rest.filter (fun c => !q c) := by
  intro fuel
  induction fuel with
  | zero =>
    intro kept rest table del v1 table1 del1 _ h
    cases rest with
    | nil =>
      rw [disconnectOwnerLoop_nil] at h
      simp only [Option.some.injEq, Prod.mk.injEq] at h
      exact ⟨[], by simp [h.1], List.Sublist.refl _, rfl⟩
    | cons tuple rest => simp [disconnectOwnerLoop] at h
  | succ fuel ih =>
    intro kept rest table del v1 table1 del1 hq h
    cases rest with
    | nil =>
      rw [disconnectOwnerLoop_nil] at h
      simp only [Option.some.injEq, Prod.mk.injEq] at h
      exact ⟨[], by simp [h.1], List.Sublist.refl _, rfl⟩
    | cons tuple rest =>
      rw [disconnectOwnerLoop] at h
      by_cases ho : tuple.asSlot = asSlot
      · rw [if_pos ho] at h
        by_cases ht : tuple.slotObj ∈ table
        · rw [if_pos ht] at h
          have hqt : q tuple = true := hq tuple ho ht
          by_cases hs : type = ConnectionType.Single
          · rw [if_pos hs] at h
            simp only [Option.some.injEq, Prod.mk.injEq] at h
            refine ⟨rest, h.1.symm, List.sublist_cons_self _ _, ?_⟩
            simp [List.filter_cons, hqt]
          · rw [if_neg hs] at h
            obtain ⟨rest1, h1, h2, h3⟩ := ih kept rest _ _ v1 table1 del1
              (fun c hc hm => hq c hc (List.mem_of_mem_erase hm)) h
            refine ⟨rest1, h1, h2.trans (List.sublist_cons_self _ _), ?_⟩
            simp [List.filter_cons, hqt, h3]
        · rw [if_neg ht] at h
          exact ih kept (tuple :: rest) table del v1 table1 del1 hq h
      · rw [if_neg ho] at h
        obtain ⟨rest1, h1, h2, h3⟩ := ih (kept ++ [tuple]) rest table del v1 table1 del1 hq h
        refine ⟨tuple :: rest1, by simp [h1], h2.cons₂ tuple, ?_⟩
        simp [List.filter_cons, h3]

/-- The loop of the owner branch ends within as many iterations as the vector
has elements when every connection of the owner in it has its slot object in
the table and these slot objects are pairwise distinct. -/
theorem disconnectOwnerLoop_terminates (asSlot : AsSlotPtr) (type : ConnectionType) :
    ∀ (rest kept : List Connection) (table del : List SlotObjPtr) (fuel : Nat),
      rest.length ≤ fuel →
      (∀ c ∈ rest, c.asSlot = asSlot → c.slotObj ∈ table) →
      ((rest.filter (fun c => decide (c.asSlot = asSlot))).map Connection.slotObj).Nodup →
      (disconnectOwnerLoop asSlot type fuel kept rest table del).isSome = true := by
  intro rest
  induction rest with
  | nil =>
    intro kept table del fuel _ _ _
    rw [disconnectOwnerLoop_nil]
    rfl
  | cons tuple rest ih =>
    intro kept table del fuel hfuel hin hnd
    cases fuel with
    | zero => simp at hfuel
    | succ fuel =>
      have hlen : rest.length ≤ fuel := by simpa using hfuel
      rw [disconnectOwnerLoop]
      by_cases ho : tuple.asSlot = asSlot
      · have ht : tuple.slotObj ∈ table := hin tuple (List.mem_cons_self _ _) ho
        rw [if_pos ho, if_pos ht]
        by_cases hs : type = ConnectionType.Single
        · rw [if_pos hs]
          rfl
        · rw [if_neg hs]
          simp only [List.filter_cons, ho, decide_True, if_true, List.map_cons,
            List.nodup_cons] at hnd
          refine ih kept _ _ fuel hlen ?_ hnd.2
          intro c hc hco
          have hne : c.slotObj ≠ tuple.slotObj := by
            intro heq
            apply hnd.1
            rw [← heq]
            exact List.mem_map_of_mem _ (List.mem_filter.mpr ⟨hc, by simp [hco]⟩)
          exact (List.mem_erase_of_ne hne).mpr (hin c (List.mem_cons_of_mem _ hc) hco)
      · rw [if_neg ho]
        simp only [List.filter_cons, ho, decide_False] at hnd
        exact ih _ table del fuel hlen
          (fun c hc hco => hin c (List.mem_cons_of_mem _ hc) hco) (by simpa using hnd)

end SignalsSlotsManager

namespace SignalsSlotsManager

/-- A disconnect by owner never returns when the first connection of the
signal's vector is one of the owner whose slot object is absent from the table
of the function's type. -/
theorem disconnectSignalSlot_stuck (m : SignalsSlotsManager) (signal : SignalPtr)
    (slot : SlotObjPtr) (asSlot : AsSlotPtr) (func : FunctionPtr) (type : ConnectionType)
    (tuple : Connection) (rest : List Connection) (ha : asSlot ≠ 0)
    (hfind : m._signalsSlotsRegistery.find signal = some (tuple :: rest))
    (ho : tuple.asSlot = asSlot) (ht : tuple.slotObj ∉ m._funcPtrToSlot func.ptrType) :
    ∀ fuel, disconnectSignalSlot fuel m signal slot asSlot func type = none := by
  intro fuel
  unfold disconnectSignalSlot
  rw [if_neg ha, hfind]
  simp only [disconnectOwnerLoop_stuck asSlot type [] tuple rest _ _ ho ht fuel]

/-- C5 fails on the code: receiver `5` binds to signal `1` a member function
of pointer type `2` (wrapper `11`); a disconnect of receiver `5` and a member
function of another pointer type `1` from signal `1` does not return, however
many iterations its loop is given, with `Multi` and with `Single`. -/
theorem disconnect_owner_other_type_diverges (fuel : Nat) (type : ConnectionType) :
    disconnectSignalSlot fuel
      (connectSignalSlot empty 1 11 5 ⟨2, 300⟩ SlotType.MemberFunction ConnectionType.Multi)
      1 0 5 ⟨1, 200⟩ type = none :=
  disconnectSignalSlot_stuck _ 1 0 5 ⟨1, 200⟩ type
    ⟨11, 5, SlotType.MemberFunction, ConnectionType.Multi⟩ [] (by decide) (by decide) rfl
    (by decide) fuel

/-- C7 (as amended): when `disconnectSignalSlot` by owner `asSlot` and member
function `func` returns, the vector of the signal is the old one with some
connections dropped and the others in their order; every connection that is
not both of owner `asSlot` and recorded in the table of the pointer type of
`func` is still there (those of other owners, those without owner, those of
`asSlot` whose wrapper is in the table of another pointer type only), so a
dropped connection is one of `asSlot` with its wrapper in that table, whichever
member function of that pointer type it was made for; the vector of every
other signal is as before. -/
theorem disconnect_by_owner_frame (fuel : Nat) (m m1 : SignalsSlotsManager)
    (signal : SignalPtr) (slot : SlotObjPtr) (asSlot : AsSlotPtr) (func : FunctionPtr)
    (type : ConnectionType) (ha : asSlot ≠ 0)
    (h : disconnectSignalSlot fuel m signal slot asSlot func type = some m1) :
    (connections m1 signal).Sublist (connections m signal) ∧
    (connections m1 signal).filter
        (fun c => !sameOwnerInTable asSlot (m._funcPtrToSlot func.ptrType) c)
      = (connections m signal).filter
        (fun c => !sameOwnerInTable asSlot (m._funcPtrToSlot func.ptrType) c) ∧
    (∀ c ∈ connections m signal,
        (c.asSlot ≠ asSlot ∨ c.slotObj ∉ m._funcPtrToSlot func.ptrType) →
        c ∈ connections m1 signal) ∧
    (∀ other, other ≠ signal →
        m1._signalsSlotsRegistery.find other = m._signalsSlotsRegistery.find other) := by
  have key : (connections m1 signal).Sublist (connections m signal) ∧
      (connections m1 signal).filter
          (fun c => !sameOwnerInTable asSlot (m._funcPtrToSlot func.ptrType) c)
        = (connections m signal).filter
          (fun c => !sameOwnerInTable asSlot (m._funcPtrToSlot func.ptrType) c) ∧
      (∀ other, other ≠ signal →
          m1._signalsSlotsRegistery.find other = m._signalsSlotsRegistery.find other) := by
    unfold disconnectSignalSlot at h
    rw [if_neg ha] at h
    cases hfind : m._signalsSlotsRegistery.find signal with
    | none =>
      rw [hfind] at h
      simp only [Option.some.injEq] at h
      subst h
      exact ⟨List.Sublist.refl _, rfl, fun _ _ => rfl⟩
    | some v =>
      rw [hfind] at h
      cases hloop : disconnectOwnerLoop asSlot type fuel [] v (m._funcPtrToSlot func.ptrType)
          m.deleted with
      | none =>
        simp [hloop] at h
      | some r =>
        obtain ⟨v1, table1, del1⟩ := r
        simp only [hloop, Option.some.injEq] at h
        obtain ⟨rest1, h1, h2, h3⟩ := disconnectOwnerLoop_frame asSlot type
          (sameOwnerInTable asSlot (m._funcPtrToSlot func.ptrType)) fuel [] v _ _ v1 table1 del1
          (fun c hc hm => by simp [sameOwnerInTable, hc, hm]) hloop
        have hv1 : v1 = rest1 := by simpa using h1
        subst hv1
        subst h
        refine ⟨?_, ?_, ?_⟩
        · simpa [connections, Registery.find_assign_same, hfind] using h2
        · simpa [connections, Registery.find_assign_same, hfind] using h3
        · intro other hother
          exact Registery.find_assign_other _ _ _ _ hother
  refine ⟨key.1, key.2.1, ?_, key.2.2⟩
  intro c hc hcond
  have hmem : c ∈ (connections m signal).filter
      (fun c => !sameOwnerInTable asSlot (m._funcPtrToSlot func.ptrType) c) := by
    rw [List.mem_filter]
    refine ⟨hc, ?_⟩
    rcases hcond with hne | hnt
    · simp [sameOwnerInTable, Ne.symm hne]
    · simp [sameOwnerInTable, hnt]
  rw [← key.2.1] at hmem
  exact (List.mem_filter.mp hmem).1

/-- C7 (as amended), at a concrete input: signal `1` holds a connection of
receiver `5` (wrapper `10`, function type `1`), a slot object `20` without
owner and a connection of receiver `6` (wrapper `11`, function type `1`);
the disconnect of receiver `5` returns and leaves the last two in place. -/
theorem disconnect_by_owner_frame_witness :
    ∃ m1, disconnectSignalSlot 3 (connectAll empty
        [⟨1, 10, 5, ⟨1, 200⟩, SlotType.MemberFunction, ConnectionType.Multi⟩,
         ⟨1, 20, 0, FunctionPtr.null, SlotType.SlotObject, ConnectionType.Multi⟩,
         ⟨1, 11, 6, ⟨1, 200⟩, SlotType.MemberFunction, ConnectionType.Multi⟩])
        1 0 5 ⟨1, 200⟩ ConnectionType.Multi = some m1 ∧
      (⟨20, 0, SlotType.SlotObject, ConnectionType.Multi⟩ : Connection) ∈ connections m1 1 ∧
      (⟨11, 6, SlotType.MemberFunction, ConnectionType.Multi⟩ : Connection)
        ∈ connections m1 1 := by
  have hsome : (disconnectSignalSlot 3 (connectAll empty
        [⟨1, 10, 5, ⟨1, 200⟩, SlotType.MemberFunction, ConnectionType.Multi⟩,
         ⟨1, 20, 0, FunctionPtr.null, SlotType.SlotObject, ConnectionType.Multi⟩,
         ⟨1, 11, 6, ⟨1, 200⟩, SlotType.MemberFunction, ConnectionType.Multi⟩])
        1 0 5 ⟨1, 200⟩ ConnectionType.Multi).isSome = true := by decide
  obtain ⟨m1, hm1⟩ := Option.isSome_iff_exists.mp hsome
  have h := (disconnect_by_owner_frame 3 _ m1 1 0 5 ⟨1, 200⟩ ConnectionType.Multi
    (by decide) hm1).2.2.1
  exact ⟨m1, hm1, h _ (by decide) (Or.inl (by decide)), h _ (by decide) (Or.inl (by decide))⟩

/-- C7 as stated fails: receiver `5` is connected to signal `1` through member
function `g` only (pointer type `1`, pointer `100`, wrapper `10`); the
disconnect of receiver `5` and the other member function `f` (same pointer
type `1`, pointer `200`) from signal `1` drops the connection made for `g`
and deletes its wrapper. -/
theorem disconnect_by_owner_counterexample :
    connections (connectSignalSlot empty 1 10 5 ⟨1, 100⟩ SlotType.MemberFunction
        ConnectionType.Multi) 1
      = [⟨10, 5, SlotType.MemberFunction, ConnectionType.Multi⟩] ∧
    (disconnectSignalSlot 1
        (connectSignalSlot empty 1 10 5 ⟨1, 100⟩ SlotType.MemberFunction ConnectionType.Multi)
        1 0 5 ⟨1, 200⟩ ConnectionType.Multi).map (fun m1 => (connections m1 1, m1.deleted))
      = some ([], [10]) := by
  decide

end SignalsSlotsManager

/-! ## The duplicate check of a member-function connect -/

namespace SignalsSlotsManager

theorem checkIfSameConnectionExists_owner_iff (m : SignalsSlotsManager) (signal : SignalPtr)
    (slotObj : SlotObjPtr) (asSlot : AsSlotPtr) (func : FunctionPtr) (ha : asSlot ≠ 0) :
    checkIfSameConnectionExists m signal slotObj asSlot func = true ↔
      ∃ c ∈ connections m signal,
        c.asSlot = asSlot ∧ c.slotObj ∈ m._funcPtrToSlot func.ptrType := by
  rw [checkIfSameConnectionExists_eq, if_neg ha, List.any_eq_true]
  constructor
  · rintro ⟨c, hc, hq⟩
    simp only [sameOwnerInTable, Bool.and_eq_true, decide_eq_true_eq] at hq
    exact ⟨c, hc, hq.1.symm, hq.2⟩
  · rintro ⟨c, hc, h1, h2⟩
    exact ⟨c, hc, by simp [sameOwnerInTable, h1, h2]⟩

/-- A `Single` connect with an owner changes nothing if and only if the vector
of the signal already holds a connection of that owner whose slot object is in
the table of the pointer type of the function; otherwise exactly one
connection is appended to the tail of the vector; the other signals keep
theirs. -/
theorem connectSignalSlot_single_owner_iff (m : SignalsSlotsManager) (signal : SignalPtr)
    (slotObj : SlotObjPtr) (asSlot : AsSlotPtr) (func : FunctionPtr) (slotType : SlotType)
    (ha : asSlot ≠ 0) :
    (connectSignalSlot m signal slotObj asSlot func slotType ConnectionType.Single = m ↔
      ∃ c ∈ connections m signal,
        c.asSlot = asSlot ∧ c.slotObj ∈ m._funcPtrToSlot func.ptrType) ∧
    ((¬ ∃ c ∈ connections m signal,
        c.asSlot = asSlot ∧ c.slotObj ∈ m._funcPtrToSlot func.ptrType) →
      connections (connectSignalSlot m signal slotObj asSlot func slotType
          ConnectionType.Single) signal
        = connections m signal ++ [⟨slotObj, asSlot, slotType, ConnectionType.Single⟩]) ∧
    (∀ other, other ≠ signal →
      (connectSignalSlot m signal slotObj asSlot func slotType
          ConnectionType.Single)._signalsSlotsRegistery.find other
        = m._signalsSlotsRegistery.find other) := by
  have hiff := checkIfSameConnectionExists_owner_iff m signal slotObj asSlot func ha
  have happ : (¬ ∃ c ∈ connections m signal,
        c.asSlot = asSlot ∧ c.slotObj ∈ m._funcPtrToSlot func.ptrType) →
      connections (connectSignalSlot m signal slotObj asSlot func slotType
          ConnectionType.Single) signal
        = connections m signal ++ [⟨slotObj, asSlot, slotType, ConnectionType.Single⟩] := by
    intro hno
    exact connections_connect_same m signal slotObj asSlot func slotType
      ConnectionType.Single (fun hc => hno (hiff.mp hc.2))
  refine ⟨⟨?_, ?_⟩, happ, ?_⟩
  · intro heq
    by_contra hno
    have h := happ hno
    rw [heq] at h
    have hlen := congrArg List.length h
    simp at hlen
  · intro hex
    exact connectSignalSlot_of_dup m signal slotObj asSlot func slotType _ ⟨rfl, hiff.mpr hex⟩
  · intro other ho
    exact connectSignalSlot_find_other m signal other slotObj asSlot func slotType _ ho

/-- C6 as stated fails: receiver `5` is connected to signal `1` through member
function `g` only (pointer type `1`, pointer `100`, wrapper `10`); the `Single`
connect of another member function `f` of the same pointer type (pointer
`200`, wrapper `11`) appends nothing: the vector of the signal stays as it is
and the table of the pointer type does not get the wrapper `11`. -/
theorem single_member_connect_counterexample :
    (⟨1, 100⟩ : FunctionPtr) ≠ ⟨1, 200⟩ ∧
    connections (connectSignalSlot empty 1 10 5 ⟨1, 100⟩ SlotType.MemberFunction
        ConnectionType.Multi) 1
      = [⟨10, 5, SlotType.MemberFunction, ConnectionType.Multi⟩] ∧
    connections (connectSignalSlot
        (connectSignalSlot empty 1 10 5 ⟨1, 100⟩ SlotType.MemberFunction ConnectionType.Multi)
        1 11 5 ⟨1, 200⟩ SlotType.MemberFunction ConnectionType.Single) 1
      = [⟨10, 5, SlotType.MemberFunction, ConnectionType.Multi⟩] ∧
    (connectSignalSlot
        (connectSignalSlot empty 1 10 5 ⟨1, 100⟩ SlotType.MemberFunction ConnectionType.Multi)
        1 11 5 ⟨1, 200⟩ SlotType.MemberFunction ConnectionType.Single)._funcPtrToSlot 1
      = [10] := by
  decide

end SignalsSlotsManager

/-! ## Destruction of a signal, of a slot object, of a receiver -/

namespace SignalsSlotsManager

theorem eraseSlotLoop_eq_filter (slot : SlotObjPtr) (v : List Connection) :
    eraseSlotLoop slot v = v.filter (fun tuple => decide (tuple.slotObj ≠ slot)) := by
  induction v with
  | nil => rfl
  | cons tuple rest ih =>
    by_cases h : tuple.slotObj = slot
    · simp [eraseSlotLoop, h, ih]
    · simp [eraseSlotLoop, h, ih]

theorem eraseOwnerLoop_fst (asSlot : AsSlotPtr) (v : List Connection) :
    ∀ del : List SlotObjPtr,
      (eraseOwnerLoop asSlot v del).1 = v.filter (fun tuple => decide (tuple.asSlot ≠ asSlot)) := by
  induction v with
  | nil => intro del; rfl
  | cons tuple rest ih =>
    intro del
    by_cases h : tuple.asSlot = asSlot
    · simp [eraseOwnerLoop, h, ih]
    · simp [eraseOwnerLoop, h, ih]

theorem find_eraseOwnerAll (asSlot : AsSlotPtr) (signal : SignalPtr) (r : Registery) :
    ∀ del : List SlotObjPtr,
      Registery.find (eraseOwnerAll asSlot r del).1 signal
        = (r.find signal).map
            (fun v => v.filter (fun tuple => decide (tuple.asSlot ≠ asSlot))) := by
  induction r with
  | nil => intro del; rfl
  | cons kv r ih =>
    intro del
    obtain ⟨k, v⟩ := kv
    by_cases h : k = signal
    · simp [eraseOwnerAll, Registery.find, h, eraseOwnerLoop_fst]
    · simp [eraseOwnerAll, Registery.find, h, ih]

/-- C8: after `onSignalDestroyed(signal)` the registry has no entry for
`signal` and an emission on it calls no slot, while the vector of every other
signal, and so what an emission on it calls, is as before (as are the tables
and the deletion log). -/
theorem onSignalDestroyed_removes_entry (m : SignalsSlotsManager) (signal : SignalPtr) :
    (onSignalDestroyed m signal)._signalsSlotsRegistery.find signal = none ∧
    onSignalEmited (onSignalDestroyed m signal) signal = [] ∧
    (∀ other, other ≠ signal →
      (onSignalDestroyed m signal)._signalsSlotsRegistery.find other
          = m._signalsSlotsRegistery.find other ∧
      onSignalEmited (onSignalDestroyed m signal) other = onSignalEmited m other) ∧
    (onSignalDestroyed m signal)._funcPtrToSlot = m._funcPtrToSlot ∧
    (onSignalDestroyed m signal).deleted = m.deleted := by
  have h1 : (onSignalDestroyed m signal)._signalsSlotsRegistery.find signal = none :=
    Registery.find_erase_same _ _
  refine ⟨h1, ?_, ?_, rfl, rfl⟩
  · rw [onSignalEmited_eq, h1]
    rfl
  · intro other ho
    have h2 : (onSignalDestroyed m signal)._signalsSlotsRegistery.find other
        = m._signalsSlotsRegistery.find other := Registery.find_erase_other _ _ _ ho
    refine ⟨h2, ?_⟩
    rw [onSignalEmited_eq, onSignalEmited_eq, h2]

/-- C9: after `onSlotDestroyed(slot)` the vector of every signal is its old
vector without the connections whose slot object is `slot` (the others kept,
in their order), so no vector holds a connection whose slot object is `slot`. -/
theorem onSlotDestroyed_removes_slot (m : SignalsSlotsManager) (slot : SlotObjPtr)
    (signal : SignalPtr) :
    (onSlotDestroyed m slot)._signalsSlotsRegistery.find signal
      = (m._signalsSlotsRegistery.find signal).map
          (fun v => v.filter (fun tuple => decide (tuple.slotObj ≠ slot))) ∧
    connections (onSlotDestroyed m slot) signal
      = (connections m signal).filter (fun tuple => decide (tuple.slotObj ≠ slot)) ∧
    (∀ tuple ∈ connections (onSlotDestroyed m slot) signal, tuple.slotObj ≠ slot) := by
  have h1 : (onSlotDestroyed m slot)._signalsSlotsRegistery.find signal
      = (m._signalsSlotsRegistery.find signal).map
          (fun v => v.filter (fun tuple => decide (tuple.slotObj ≠ slot))) := by
    simp only [onSlotDestroyed]
    rw [Registery.find_map_values m._signalsSlotsRegistery (eraseSlotLoop slot) signal]
    congr 1
    funext v
    exact eraseSlotLoop_eq_filter slot v
  have h2 : connections (onSlotDestroyed m slot) signal
      = (connections m signal).filter (fun tuple => decide (tuple.slotObj ≠ slot)) := by
    unfold connections
    rw [h1]
    cases m._signalsSlotsRegistery.find signal <;> simp
  refine ⟨h1, h2, ?_⟩
  intro tuple ht
  rw [h2, List.mem_filter] at ht
  simpa using ht.2

/-- C10: after `onSlotDestroyed(asSlot)` the vector of every signal is its old
vector without the connections whose owner is `asSlot`: no vector holds a
connection of owner `asSlot`, and the connections of the other owners are all
there in their order, as are, for a receiver `asSlot` (not `nullptr`), the
connections without owner. -/
theorem onSlotDestroyedAsSlot_removes_owner (m : SignalsSlotsManager) (asSlot : AsSlotPtr)
    (signal : SignalPtr) :
    (onSlotDestroyedAsSlot m asSlot)._signalsSlotsRegistery.find signal
      = (m._signalsSlotsRegistery.find signal).map
          (fun v => v.filter (fun tuple => decide (tuple.asSlot ≠ asSlot))) ∧
    connections (onSlotDestroyedAsSlot m asSlot) signal
      = (connections m signal).filter (fun tuple => decide (tuple.asSlot ≠ asSlot)) ∧
    (∀ tuple ∈ connections (onSlotDestroyedAsSlot m asSlot) signal, tuple.asSlot ≠ asSlot) ∧
    (asSlot ≠ 0 →
      (connections (onSlotDestroyedAsSlot m asSlot) signal).filter
          (fun tuple => decide (tuple.asSlot = 0))
        = (connections m signal).filter (fun tuple => decide (tuple.asSlot = 0))) := by
  have h1 : (onSlotDestroyedAsSlot m asSlot)._signalsSlotsRegistery.find signal
      = (m._signalsSlotsRegistery.find signal).map
          (fun v => v.filter (fun tuple => decide (tuple.asSlot ≠ asSlot))) :=
    find_eraseOwnerAll asSlot signal m._signalsSlotsRegistery m.deleted
  have h2 : connections (onSlotDestroyedAsSlot m asSlot) signal
      = (connections m signal).filter (fun tuple => decide (tuple.asSlot ≠ asSlot)) := by
    unfold connections
    rw [h1]
    cases m._signalsSlotsRegistery.find signal <;> simp
  refine ⟨h1, h2, ?_, ?_⟩
  · intro tuple ht
    rw [h2, List.mem_filter] at ht
    simpa using ht.2
  · intro ha
    rw [h2, List.filter_filter]
    apply List.filter_congr
    intro tuple _
    by_cases h0 : tuple.asSlot = 0
    · simp [h0, Ne.symm ha]
    · simp [h0]

end SignalsSlotsManager

namespace SignalsSlotsManager

/-- C8, at a concrete input: the signals `1` and `2` hold one slot object
each; after signal `1` is destroyed an emission on it calls nothing and an
emission on signal `2` calls its slot object. -/
theorem onSignalDestroyed_removes_entry_witness :
    onSignalEmited (onSignalDestroyed (connectAll empty
        [⟨1, 10, 0, FunctionPtr.null, SlotType.SlotObject, ConnectionType.Multi⟩,
         ⟨2, 20, 0, FunctionPtr.null, SlotType.SlotObject, ConnectionType.Multi⟩]) 1) 1 = [] ∧
    onSignalEmited (onSignalDestroyed (connectAll empty
        [⟨1, 10, 0, FunctionPtr.null, SlotType.SlotObject, ConnectionType.Multi⟩,
         ⟨2, 20, 0, FunctionPtr.null, SlotType.SlotObject, ConnectionType.Multi⟩]) 1) 2
      = [20] := by
  have h := onSignalDestroyed_removes_entry (connectAll empty
        [⟨1, 10, 0, FunctionPtr.null, SlotType.SlotObject, ConnectionType.Multi⟩,
         ⟨2, 20, 0, FunctionPtr.null, SlotType.SlotObject, ConnectionType.Multi⟩]) 1
  refine ⟨h.2.1, ?_⟩
  rw [(h.2.2.1 2 (by decide)).2]
  decide

/-- C9, at a concrete input: the slot object `10` is connected to the signals
`1` (twice, around the slot object `11`) and `2`; after it is destroyed signal
`1` holds the slot object `11` only and signal `2` nothing. -/
theorem onSlotDestroyed_removes_slot_witness :
    connections (onSlotDestroyed (connectAll empty
        [⟨1, 10, 0, FunctionPtr.null, SlotType.SlotObject, ConnectionType.Multi⟩,
         ⟨1, 11, 0, FunctionPtr.null, SlotType.SlotObject, ConnectionType.Multi⟩,
         ⟨1, 10, 0, FunctionPtr.null, SlotType.SlotObject, ConnectionType.Multi⟩,
         ⟨2, 10, 0, FunctionPtr.null, SlotType.SlotObject, ConnectionType.Multi⟩]) 10) 1
      = [⟨11, 0, SlotType.SlotObject, ConnectionType.Multi⟩] ∧
    connections (onSlotDestroyed (connectAll empty
        [⟨1, 10, 0, FunctionPtr.null, SlotType.SlotObject, ConnectionType.Multi⟩,
         ⟨1, 11, 0, FunctionPtr.null, SlotType.SlotObject, ConnectionType.Multi⟩,
         ⟨1, 10, 0, FunctionPtr.null, SlotType.SlotObject, ConnectionType.Multi⟩,
         ⟨2, 10, 0, FunctionPtr.null, SlotType.SlotObject, ConnectionType.Multi⟩]) 10) 2
      = [] := by
  refine ⟨?_, ?_⟩
  · rw [(onSlotDestroyed_removes_slot _ 10 1).2.1]
    decide
  · rw [(onSlotDestroyed_removes_slot _ 10 2).2.1]
    decide

/-- C10, at a concrete input: signal `1` holds a wrapper of receiver `5`, a
slot object without owner and a wrapper of receiver `6`; after receiver `5` is
destroyed the last two are left, in their order, and the wrapper `10` has been
deleted. -/
theorem onSlotDestroyedAsSlot_removes_owner_witness :
    connections (onSlotDestroyedAsSlot (connectAll empty
        [⟨1, 10, 5, ⟨1, 200⟩, SlotType.MemberFunction, ConnectionType.Multi⟩,
         ⟨1, 20, 0, FunctionPtr.null, SlotType.SlotObject, ConnectionType.Multi⟩,
         ⟨1, 11, 6, ⟨1, 200⟩, SlotType.MemberFunction, ConnectionType.Multi⟩]) 5) 1
      = [⟨20, 0, SlotType.SlotObject, ConnectionType.Multi⟩,
         ⟨11, 6, SlotType.MemberFunction, ConnectionType.Multi⟩] ∧
    (onSlotDestroyedAsSlot (connectAll empty
        [⟨1, 10, 5, ⟨1, 200⟩, SlotType.MemberFunction, ConnectionType.Multi⟩,
         ⟨1, 20, 0, FunctionPtr.null, SlotType.SlotObject, ConnectionType.Multi⟩,
         ⟨1, 11, 6, ⟨1, 200⟩, SlotType.MemberFunction, ConnectionType.Multi⟩]) 5).deleted
      = [10] := by
  refine ⟨?_, by decide⟩
  rw [(onSlotDestroyedAsSlot_removes_owner _ 5 1).2.1]
  decide

/-- C3, at a concrete input: three `Multi` connects of the slot object `10`
to signal `1`, which already holds the slot object `9`, make an emission call
`9` and then `10` three times. -/
theorem multi_connect_additive_witness :
    onSignalEmited (connectAll
        (connectSignalSlot empty 1 9 0 FunctionPtr.null SlotType.SlotObject ConnectionType.Multi)
        ([10, 10, 10].map (fun w =>
          (⟨1, w, 0, FunctionPtr.null, SlotType.SlotObject, ConnectionType.Multi⟩ : ConnectCall)))) 1
      = [9, 10, 10, 10] := by
  rw [(multi_connect_additive
    (connectSignalSlot empty 1 9 0 FunctionPtr.null SlotType.SlotObject ConnectionType.Multi)
    1 0 FunctionPtr.null SlotType.SlotObject [10, 10, 10]).2.2.1]
  decide

end SignalsSlotsManager

/-! ## What a disconnect by owner removes, deletes and erases from the table -/

namespace SignalsSlotsManager

theorem disconnectOwnerLoop_multi_exact (asSlot : AsSlotPtr) :
    ∀ (fuel : Nat) (kept rest : List Connection) (table del : List SlotObjPtr)
      (v1 : List Connection) (table1 del1 : List SlotObjPtr),
      disconnectOwnerLoop asSlot ConnectionType.Multi fuel kept rest table del
        = some (v1, table1, del1) →
      v1 = kept ++ ownerKept asSlot ConnectionType.Multi rest ∧
      table1 = table.diff ((ownerRemoved asSlot ConnectionType.Multi rest).map Connection.slotObj) ∧
      del1 = del ++ (ownerRemoved asSlot ConnectionType.Multi rest).map Connection.slotObj ∧
      ∀ c ∈ ownerRemoved asSlot ConnectionType.Multi rest, c.slotObj ∈ table := by
  intro fuel
  induction fuel with
  | zero =>
    intro kept rest table del v1 table1 del1 h
    cases rest with
    | nil =>
      rw [disconnectOwnerLoop_nil] at h
      simp only [Option.some.injEq, Prod.mk.injEq] at h
      simp [ownerKept, ownerRemoved, h.1, h.2.1, h.2.2]
    | cons tuple rest => simp [disconnectOwnerLoop] at h
  | succ fuel ih =>
    intro kept rest table del v1 table1 del1 h
    cases rest with
    | nil =>
      rw [disconnectOwnerLoop_nil] at h
      simp only [Option.some.injEq, Prod.mk.injEq] at h
      simp [ownerKept, ownerRemoved, h.1, h.2.1, h.2.2]
    | cons tuple rest =>
      rw [disconnectOwnerLoop] at h
      by_cases ho : tuple.asSlot = asSlot
      · rw [if_pos ho] at h
        by_cases ht : tuple.slotObj ∈ table
        · rw [if_pos ht, if_neg (by decide)] at h
          obtain ⟨h1, h2, h3, h4⟩ := ih kept rest _ _ v1 table1 del1 h
          refine ⟨?_, ?_, ?_, ?_⟩
          · simpa [ownerKept, List.filter_cons, ho] using h1
          · simpa [ownerRemoved, List.filter_cons, ho] using h2
          · simpa [ownerRemoved, List.filter_cons, ho] using h3
          · intro c hc
            simp only [ownerRemoved, List.filter_cons, ho, decide_True, if_true,
              List.mem_cons] at hc
            rcases hc with rfl | hc
            · exact ht
            · exact List.mem_of_mem_erase (h4 c hc)
        · rw [if_neg ht] at h
          exact ih kept (tuple :: rest) table del v1 table1 del1 h
      · rw [if_neg ho] at h
        obtain ⟨h1, h2, h3, h4⟩ := ih (kept ++ [tuple]) rest table del v1 table1 del1 h
        refine ⟨?_, ?_, ?_, ?_⟩
        · simpa [ownerKept, List.filter_cons, ho] using h1
        · simpa [ownerRemoved, List.filter_cons, ho] using h2
        · simpa [ownerRemoved, List.filter_cons, ho] using h3
        · simpa [ownerRemoved, List.filter_cons, ho] using h4

theorem disconnectOwnerLoop_single_exact (asSlot : AsSlotPtr) :
    ∀ (fuel : Nat) (kept rest : List Connection) (table del : List SlotObjPtr)
      (v1 : List Connection) (table1 del1 : List SlotObjPtr),
      disconnectOwnerLoop asSlot ConnectionType.Single fuel kept rest table del
        = some (v1, table1, del1) →
      v1 = kept ++ ownerKept asSlot ConnectionType.Single rest ∧
      table1 = table.diff ((ownerRemoved asSlot ConnectionType.Single rest).map Connection.slotObj) ∧
      del1 = del ++ (ownerRemoved asSlot ConnectionType.Single rest).map Connection.slotObj ∧
      ∀ c ∈ ownerRemoved asSlot ConnectionType.Single rest, c.slotObj ∈ table := by
  intro fuel
  induction fuel with
  | zero =>
    intro kept rest table del v1 table1 del1 h
    cases rest with
    | nil =>
      rw [disconnectOwnerLoop_nil] at h
      simp only [Option.some.injEq, Prod.mk.injEq] at h
      simp [ownerKept, ownerRemoved, h.1, h.2.1, h.2.2]
    | cons tuple rest => simp [disconnectOwnerLoop] at h
  | succ fuel ih =>
    intro kept rest table del v1 table1 del1 h
    cases rest with
    | nil =>
      rw [disconnectOwnerLoop_nil] at h
      simp only [Option.some.injEq, Prod.mk.injEq] at h
      simp [ownerKept, ownerRemoved, h.1, h.2.1, h.2.2]
    | cons tuple rest =>
      rw [disconnectOwnerLoop] at h
      by_cases ho : tuple.asSlot = asSlot
      · rw [if_pos ho] at h
        by_cases ht : tuple.slotObj ∈ table
        · rw [if_pos ht, if_pos rfl] at h
          simp only [Option.some.injEq, Prod.mk.injEq] at h
          refine ⟨?_, ?_, ?_, ?_⟩
          · simp [ownerKept, ho, h.1]
          · simp [ownerRemoved, List.find?_cons, ho, h.2.1]
          · simp [ownerRemoved, List.find?_cons, ho, h.2.2]
          · intro c hc
            simp only [ownerRemoved, List.find?_cons, ho, decide_True, Option.toList_some,
              List.mem_singleton] at hc
            rw [hc]
            exact ht
        · rw [if_neg ht] at h
          exact ih kept (tuple :: rest) table del v1 table1 del1 h
      · rw [if_neg ho] at h
        obtain ⟨h1, h2, h3, h4⟩ := ih (kept ++ [tuple]) rest table del v1 table1 del1 h
        refine ⟨?_, ?_, ?_, ?_⟩
        · simpa [ownerKept, ho] using h1
        · simpa [ownerRemoved, List.find?_cons, ho] using h2
        · simpa [ownerRemoved, List.find?_cons, ho] using h3
        · simpa [ownerRemoved, List.find?_cons, ho] using h4

theorem disconnectOwnerLoop_exact (asSlot : AsSlotPtr) (type : ConnectionType)
    (fuel : Nat) (kept rest : List Connection) (table del : List SlotObjPtr)
    (v1 : List Connection) (table1 del1 : List SlotObjPtr)
    (h : disconnectOwnerLoop asSlot type fuel kept rest table del = some (v1, table1, del1)) :
    v1 = kept ++ ownerKept asSlot type rest ∧
    table1 = table.diff ((ownerRemoved asSlot type rest).map Connection.slotObj) ∧
    del1 = del ++ (ownerRemoved asSlot type rest).map Connection.slotObj ∧
    ∀ c ∈ ownerRemoved asSlot type rest, c.slotObj ∈ table := by
  cases type with
  | Multi => exact disconnectOwnerLoop_multi_exact asSlot fuel kept rest table del v1 table1 del1 h
  | Single =>
    exact disconnectOwnerLoop_single_exact asSlot fuel kept rest table del v1 table1 del1 h

end SignalsSlotsManager

namespace Registery

theorem assign_of_find_none (r : Registery) (signal : SignalPtr) (v : List Connection)
    (h : r.find signal = none) : r.assign signal v = r := by
  induction r with
  | nil => rfl
  | cons kv r ih =>
    obtain ⟨k, w⟩ := kv
    by_cases hk : k = signal
    · simp [find, hk] at h
    · simp only [find, hk, if_false] at h
      simp [assign, hk, ih h]

end Registery

namespace SignalsSlotsManager

theorem ownerRemoved_owner (asSlot : AsSlotPtr) (type : ConnectionType) (v : List Connection) :
    ∀ c ∈ ownerRemoved asSlot type v, c ∈ v ∧ c.asSlot = asSlot := by
  intro c hc
  cases type with
  | Multi =>
    simp only [ownerRemoved, List.mem_filter, decide_eq_true_eq] at hc
    exact hc
  | Single =>
    simp only [ownerRemoved, Option.mem_toList, Option.mem_def] at hc
    exact ⟨List.mem_of_find?_eq_some hc, by simpa using List.find?_some hc⟩

theorem ownerKept_sublist (asSlot : AsSlotPtr) (type : ConnectionType) (v : List Connection) :
    (ownerKept asSlot type v).Sublist v := by
  cases type with
  | Multi => exact List.filter_sublist v
  | Single => exact List.eraseP_sublist v

theorem ownerKept_append_ownerRemoved_perm (asSlot : AsSlotPtr) (type : ConnectionType)
    (v : List Connection) :
    List.Perm (ownerKept asSlot type v ++ ownerRemoved asSlot type v) v := by
  cases type with
  | Multi =>
    simp only [ownerKept, ownerRemoved]
    refine (List.perm_append_comm).trans ?_
    have h := List.filter_append_perm (fun tuple : Connection => decide (tuple.asSlot = asSlot)) v
    have heq : (fun tuple : Connection => decide (tuple.asSlot ≠ asSlot))
        = (fun tuple : Connection => !decide (tuple.asSlot = asSlot)) := by
      funext tuple
      simp
    rw [heq]
    exact h
  | Single =>
    simp only [ownerKept, ownerRemoved]
    induction v with
    | nil => simp
    | cons tuple rest ih =>
      by_cases ho : tuple.asSlot = asSlot
      · simp only [List.eraseP_cons, ho, decide_True, cond_true, List.find?_cons,
          Option.toList_some]
        exact (List.perm_append_comm).trans (List.Perm.refl _)
      · simp only [List.eraseP_cons, ho, decide_False, cond_false, List.find?_cons,
          List.cons_append]
        exact List.Perm.cons tuple ih

/-- The manager that a disconnect by owner returns, in closed form. -/
theorem disconnectSignalSlot_owner_eq (fuel : Nat) (m m1 : SignalsSlotsManager)
    (signal : SignalPtr) (slot : SlotObjPtr) (asSlot : AsSlotPtr) (func : FunctionPtr)
    (type : ConnectionType) (ha : asSlot ≠ 0)
    (h : disconnectSignalSlot fuel m signal slot asSlot func type = some m1) :
    m1 = { _funcPtrToSlot := Function.update m._funcPtrToSlot func.ptrType
              ((m._funcPtrToSlot func.ptrType).diff
                ((ownerRemoved asSlot type (connections m signal)).map Connection.slotObj))
           _signalsSlotsRegistery :=
              m._signalsSlotsRegistery.assign signal (ownerKept asSlot type (connections m signal))
           deleted := m.deleted
              ++ (ownerRemoved asSlot type (connections m signal)).map Connection.slotObj } ∧
    ∀ c ∈ ownerRemoved asSlot type (connections m signal),
      c.slotObj ∈ m._funcPtrToSlot func.ptrType := by
  unfold disconnectSignalSlot at h
  rw [if_neg ha] at h
  cases hfind : m._signalsSlotsRegistery.find signal with
  | none =>
    simp only [hfind, Option.some.injEq] at h
    subst h
    have hc : connections m signal = [] := by simp [connections, hfind]
    have hk : ownerKept asSlot type ([] : List Connection) = [] := by
      cases type <;> rfl
    have hr : ownerRemoved asSlot type ([] : List Connection) = [] := by
      cases type <;> rfl
    rw [hc, hk, hr]
    refine ⟨?_, by simp⟩
    simp [Registery.assign_of_find_none _ _ _ hfind]
  | some v =>
    simp only [hfind] at h
    have hc : connections m signal = v := by simp [connections, hfind]
    rw [hc]
    cases hloop : disconnectOwnerLoop asSlot type fuel [] v (m._funcPtrToSlot func.ptrType)
        m.deleted with
    | none => simp [hloop] at h
    | some r =>
      obtain ⟨v1, table1, del1⟩ := r
      simp only [hloop, Option.some.injEq] at h
      obtain ⟨h1, h2, h3, h4⟩ := disconnectOwnerLoop_exact asSlot type fuel [] v _ _ v1 table1
        del1 hloop
      refine ⟨?_, h4⟩
      rw [← h, h1, h2, h3]
      simp

end SignalsSlotsManager

namespace SignalsSlotsManager

end SignalsSlotsManager

/-! ## Disconnect followed by a reconnect -/

namespace SignalsSlotsManager

theorem connections_disconnect_slot (fuel : Nat) (m : SignalsSlotsManager) (signal : SignalPtr)
    (slot : SlotObjPtr) (func : FunctionPtr) (type : ConnectionType) :
    ∃ m1, disconnectSignalSlot fuel m signal slot 0 func type = some m1 ∧
      connections m1 signal = disconnectSlotLoop slot type (connections m signal) := by
  unfold disconnectSignalSlot
  rw [if_pos rfl]
  cases hfind : m._signalsSlotsRegistery.find signal with
  | none =>
    refine ⟨m, rfl, ?_⟩
    simp [connections, hfind, disconnectSlotLoop]
  | some v =>
    refine ⟨_, rfl, ?_⟩
    simp [connections, Registery.find_assign_same, hfind]

theorem connections_disconnect_owner (fuel : Nat) (m m1 : SignalsSlotsManager)
    (signal : SignalPtr) (slot : SlotObjPtr) (asSlot : AsSlotPtr) (func : FunctionPtr)
    (type : ConnectionType) (ha : asSlot ≠ 0)
    (h : disconnectSignalSlot fuel m signal slot asSlot func type = some m1) :
    connections m1 signal = ownerKept asSlot type (connections m signal) := by
  obtain ⟨heq, _⟩ := disconnectSignalSlot_owner_eq fuel m m1 signal slot asSlot func type ha h
  rw [heq]
  simp only [connections, Registery.find_assign_same]
  cases hfind : m._signalsSlotsRegistery.find signal with
  | none => cases type <;> rfl
  | some v => rfl

theorem onSignalEmited_of_connections (m : SignalsSlotsManager) (signal : SignalPtr)
    (v : List Connection) (h : connections m signal = v) :
    onSignalEmited m signal = v.map Connection.slotObj := by
  rw [onSignalEmited_eq_connections, h]

/-- C14 (as amended): a `Multi` disconnect of a binding from a signal followed
by a connect of the same binding (with either cardinality) leaves the binding
as the last connection of the signal's vector, after the connections that the
disconnect has not dropped, which keep their order. For a slot object the
disconnect returns and drops the connections of that slot object only. For a
member function of receiver `asSlot` the disconnect, when it returns, drops
every connection of `asSlot` on that signal (also those made for its other
member functions), and the new wrapper comes after the connections of the
other owners. An emission calls the binding last. -/
theorem reconnect_appends_at_tail (fuel : Nat) (m : SignalsSlotsManager) (signal : SignalPtr)
    (func : FunctionPtr) (slotType : SlotType) (connectionType : ConnectionType) :
    (∀ slot : SlotObjPtr,
      ∃ m1, disconnectSignalSlot fuel m signal slot 0 func ConnectionType.Multi = some m1 ∧
        connections (connectSignalSlot m1 signal slot 0 func slotType connectionType) signal
          = (connections m signal).filter (fun tuple => decide (tuple.slotObj ≠ slot))
              ++ [⟨slot, 0, slotType, connectionType⟩] ∧
        onSignalEmited (connectSignalSlot m1 signal slot 0 func slotType connectionType) signal
          = (onSignalEmited m signal).filter (fun s => decide (s ≠ slot)) ++ [slot]) ∧
    (∀ (asSlot : AsSlotPtr) (slot newSlot : SlotObjPtr) (m1 : SignalsSlotsManager),
      asSlot ≠ 0 →
      disconnectSignalSlot fuel m signal slot asSlot func ConnectionType.Multi = some m1 →
      connections (connectSignalSlot m1 signal newSlot asSlot func slotType connectionType) signal
          = (connections m signal).filter (fun tuple => decide (tuple.asSlot ≠ asSlot))
              ++ [⟨newSlot, asSlot, slotType, connectionType⟩] ∧
      onSignalEmited (connectSignalSlot m1 signal newSlot asSlot func slotType
          connectionType) signal
        = ((connections m signal).filter
              (fun tuple => decide (tuple.asSlot ≠ asSlot))).map Connection.slotObj
            ++ [newSlot]) := by
  constructor
  · intro slot
    obtain ⟨m1, h1, h2⟩ := connections_disconnect_slot fuel m signal slot func
      ConnectionType.Multi
    have hc : connections m1 signal
        = (connections m signal).filter (fun tuple => decide (tuple.slotObj ≠ slot)) := by
      rw [h2, disconnectSlotLoop_multi]
    have hno : ¬ (connectionType = ConnectionType.Single
        ∧ checkIfSameConnectionExists m1 signal slot 0 func = true) := by
      rintro ⟨_, hchk⟩
      rw [checkIfSameConnectionExists_eq, if_pos rfl, hc, List.any_eq_true] at hchk
      obtain ⟨c, hcm, hcs⟩ := hchk
      simp only [List.mem_filter, decide_eq_true_eq] at hcm hcs
      exact hcm.2 hcs.symm
    have hnew := connections_connect_same m1 signal slot 0 func slotType connectionType hno
    rw [hc] at hnew
    refine ⟨m1, h1, hnew, ?_⟩
    rw [onSignalEmited_of_connections _ _ _ hnew, onSignalEmited_eq_connections,
      List.filter_map]
    simp [Function.comp_def]
  · intro asSlot slot newSlot m1 ha h
    have hc : connections m1 signal
        = (connections m signal).filter (fun tuple => decide (tuple.asSlot ≠ asSlot)) :=
      connections_disconnect_owner fuel m m1 signal slot asSlot func ConnectionType.Multi ha h
    have hno : ¬ (connectionType = ConnectionType.Single
        ∧ checkIfSameConnectionExists m1 signal newSlot asSlot func = true) := by
      rintro ⟨_, hchk⟩
      rw [checkIfSameConnectionExists_eq, if_neg ha, hc, List.any_eq_true] at hchk
      obtain ⟨c, hcm, hcs⟩ := hchk
      simp only [List.mem_filter, decide_eq_true_eq, sameOwnerInTable, Bool.and_eq_true] at hcm hcs
      exact hcm.2 hcs.1.symm
    have hnew := connections_connect_same m1 signal newSlot asSlot func slotType
      connectionType hno
    rw [hc] at hnew
    refine ⟨hnew, ?_⟩
    rw [onSignalEmited_of_connections _ _ _ hnew]
    simp

end SignalsSlotsManager

namespace SignalsSlotsManager

/-- C14 (as amended), at a concrete input: signal `1` holds the slot objects
`10`, `11` and `12`; after `10` is disconnected and connected again an
emission calls `11`, `12` and then `10`. -/
theorem reconnect_appends_at_tail_witness :
    ∃ m1, disconnectSignalSlot 0 (connectAll empty
        [⟨1, 10, 0, FunctionPtr.null, SlotType.SlotObject, ConnectionType.Multi⟩,
         ⟨1, 11, 0, FunctionPtr.null, SlotType.SlotObject, ConnectionType.Multi⟩,
         ⟨1, 12, 0, FunctionPtr.null, SlotType.SlotObject, ConnectionType.Multi⟩])
        1 10 0 FunctionPtr.null ConnectionType.Multi = some m1 ∧
      onSignalEmited (connectSignalSlot m1 1 10 0 FunctionPtr.null SlotType.SlotObject
        ConnectionType.Multi) 1 = [11, 12, 10] := by
  obtain ⟨m1, h1, _, h3⟩ := (reconnect_appends_at_tail 0 (connectAll empty
        [⟨1, 10, 0, FunctionPtr.null, SlotType.SlotObject, ConnectionType.Multi⟩,
         ⟨1, 11, 0, FunctionPtr.null, SlotType.SlotObject, ConnectionType.Multi⟩,
         ⟨1, 12, 0, FunctionPtr.null, SlotType.SlotObject, ConnectionType.Multi⟩])
        1 FunctionPtr.null SlotType.SlotObject ConnectionType.Multi).1 10
  refine ⟨m1, h1, ?_⟩
  rw [h3]
  decide

/-- C14 as stated fails: receiver `5` binds to signal `1` its member function
`f` (pointer type `1`, pointer `200`, wrapper `10`) and then its member
function `g` (same pointer type, pointer `100`, wrapper `11`), and a slot
object `20` follows. After `f` is disconnected with `Multi` and connected again
(wrapper `12`) the connection made for `g` is no longer in the vector: of the
other connections only the slot object `20` is left before the new wrapper. -/
theorem reconnect_counterexample :
    onSignalEmited (connectAll empty
        [⟨1, 10, 5, ⟨1, 200⟩, SlotType.MemberFunction, ConnectionType.Multi⟩,
         ⟨1, 11, 5, ⟨1, 100⟩, SlotType.MemberFunction, ConnectionType.Multi⟩,
         ⟨1, 20, 0, FunctionPtr.null, SlotType.SlotObject, ConnectionType.Multi⟩]) 1
      = [10, 11, 20] ∧
    (disconnectSignalSlot 3 (connectAll empty
        [⟨1, 10, 5, ⟨1, 200⟩, SlotType.MemberFunction, ConnectionType.Multi⟩,
         ⟨1, 11, 5, ⟨1, 100⟩, SlotType.MemberFunction, ConnectionType.Multi⟩,
         ⟨1, 20, 0, FunctionPtr.null, SlotType.SlotObject, ConnectionType.Multi⟩])
        1 0 5 ⟨1, 200⟩ ConnectionType.Multi).map
        (fun m1 => onSignalEmited
          (connectSignalSlot m1 1 12 5 ⟨1, 200⟩ SlotType.MemberFunction ConnectionType.Multi) 1)
      = some [20, 12] := by
  decide

end SignalsSlotsManager

/-! ## Emission with slots that throw -/

namespace SignalsSlotsManager

theorem invokeSlotsThrowing_first_raise (call : SlotObjPtr → Option Exn)
    (before : List Connection) (tuple : Connection) (after : List Connection) (e : Exn)
    (hb : ∀ c ∈ before, call c.slotObj = none) (ht : call tuple.slotObj = some e) :
    invokeSlotsThrowing call (before ++ tuple :: after)
      = (before.map Connection.slotObj ++ [tuple.slotObj], some e) := by
  induction before with
  | nil => simp [invokeSlotsThrowing, ht]
  | cons c before ih =>
    have hc : call c.slotObj = none := hb c (List.mem_cons_self _ _)
    have ih1 := ih (fun d hd => hb d (List.mem_cons_of_mem _ hd))
    simp [invokeSlotsThrowing, hc, ih1]

theorem invokeSlotsThrowing_no_raise (call : SlotObjPtr → Option Exn) (v : List Connection)
    (hv : ∀ c ∈ v, call c.slotObj = none) :
    invokeSlotsThrowing call v = (invokeSlots v, none) := by
  induction v with
  | nil => rfl
  | cons c v ih =>
    have hc : call c.slotObj = none := hv c (List.mem_cons_self _ _)
    have ih1 := ih (fun d hd => hv d (List.mem_cons_of_mem _ hd))
    simp [invokeSlotsThrowing, invokeSlots, hc, ih1]

/-- C16: with slot calls that may throw, when the vector of the signal is
`before ++ tuple :: after`, no slot object of `before` throws and that of
`tuple` throws `e`, the emission calls the slot objects of `before` in order
and then that of `tuple`, calls none of `after`, hands `e` itself to the
caller and leaves the manager as it was; when no slot object of the vector
throws, the emission calls all of them, as `onSignalEmited` does, and no
exception reaches the caller. -/
theorem emit_stops_at_first_exception (call : SlotObjPtr → Option Exn)
    (m : SignalsSlotsManager) (signal : SignalPtr) :
    (∀ (before : List Connection) (tuple : Connection) (after : List Connection) (e : Exn),
      m._signalsSlotsRegistery.find signal = some (before ++ tuple :: after) →
      (∀ c ∈ before, call c.slotObj = none) →
      call tuple.slotObj = some e →
      onSignalEmitedThrowing call m signal
        = (m, before.map Connection.slotObj ++ [tuple.slotObj], some e)) ∧
    ((∀ c ∈ connections m signal, call c.slotObj = none) →
      onSignalEmitedThrowing call m signal = (m, onSignalEmited m signal, none)) ∧
    (onSignalEmitedThrowing call m signal).1 = m := by
  refine ⟨?_, ?_, ?_⟩
  · intro before tuple after e hfind hb ht
    unfold onSignalEmitedThrowing
    rw [hfind]
    simp only [invokeSlotsThrowing_first_raise call before tuple after e hb ht]
  · intro hv
    unfold onSignalEmitedThrowing onSignalEmited
    cases hfind : m._signalsSlotsRegistery.find signal with
    | none => rfl
    | some v =>
      have hv1 : ∀ c ∈ v, call c.slotObj = none := by
        simpa [connections, hfind] using hv
      simp only [invokeSlotsThrowing_no_raise call v hv1]
  · unfold onSignalEmitedThrowing
    cases m._signalsSlotsRegistery.find signal <;> rfl

/-- C16, at a concrete input: signal `1` holds the slot objects `10`, `11` and
`12`, and `11` throws the exception `7`; the emission calls `10` and `11`
only and the exception `7` reaches the caller. -/
theorem emit_stops_at_first_exception_witness :
    (onSignalEmitedThrowing (fun s => if s = 11 then some 7 else none) (connectAll empty
        [⟨1, 10, 0, FunctionPtr.null, SlotType.SlotObject, ConnectionType.Multi⟩,
         ⟨1, 11, 0, FunctionPtr.null, SlotType.SlotObject, ConnectionType.Multi⟩,
         ⟨1, 12, 0, FunctionPtr.null, SlotType.SlotObject, ConnectionType.Multi⟩]) 1).2
      = ([10, 11], some 7) := by
  rw [(emit_stops_at_first_exception (fun s => if s = 11 then some 7 else none) (connectAll empty
        [⟨1, 10, 0, FunctionPtr.null, SlotType.SlotObject, ConnectionType.Multi⟩,
         ⟨1, 11, 0, FunctionPtr.null, SlotType.SlotObject, ConnectionType.Multi⟩,
         ⟨1, 12, 0, FunctionPtr.null, SlotType.SlotObject, ConnectionType.Multi⟩]) 1).1
      [⟨10, 0, SlotType.SlotObject, ConnectionType.Multi⟩]
      ⟨11, 0, SlotType.SlotObject, ConnectionType.Multi⟩
      [⟨12, 0, SlotType.SlotObject, ConnectionType.Multi⟩] 7 (by decide) (by decide) (by decide)]
  rfl

end SignalsSlotsManager

/-! ## Wrappers that are never deleted, stale table entries, unlocked check -/

namespace SignalsSlots

/-- C11 fails on the code: receiver `5` binds a member function to signal `1`
(wrapper `10`), signal `1` is destroyed, then receiver `5` is destroyed. The
state is reachable, the wrapper `10` made for receiver `5` has not been
deleted and is still allocated. When the signal is not destroyed in between,
the wrapper is deleted (the scenario of the specification). -/
theorem wrapper_outlives_receiver :
    Reachable (((start.connectMemberFunction 1 5 ⟨1, 200⟩ ConnectionType.Multi 10).signalDestroyed
      1).asSlotDestroyed 5) ∧
    (((start.connectMemberFunction 1 5 ⟨1, 200⟩ ConnectionType.Multi 10).signalDestroyed
      1).asSlotDestroyed 5).wrappersOf 5 = [10] ∧
    (((start.connectMemberFunction 1 5 ⟨1, 200⟩ ConnectionType.Multi 10).signalDestroyed
      1).asSlotDestroyed 5).allocated = [10] ∧
    (((start.connectMemberFunction 1 5 ⟨1, 200⟩ ConnectionType.Multi 10).signalDestroyed
      1).asSlotDestroyed 5).manager.deleted = [] ∧
    ((start.connectMemberFunction 1 5 ⟨1, 200⟩ ConnectionType.Multi 10).asSlotDestroyed
      5).allocated = [] := by
  refine ⟨?_, by decide, by decide, by decide, by decide⟩
  apply Reachable.asSlotDestroyed _ _ _ (by decide)
  apply Reachable.signalDestroyed
  exact Reachable.connectMemberFunction _ _ _ _ _ _ Reachable.start (by decide) (by decide)
    (by decide) (by decide)

/-- C12 fails on the code: receiver `5` binds a member function of pointer type
`1` to signal `1` (wrapper `10`) and is destroyed. The connection is purged
and the wrapper deleted, but the table of pointer type `1` still holds the
wrapper `10`. -/
theorem table_keeps_wrapper_of_destroyed_receiver :
    SignalsSlotsManager.connections ((start.connectMemberFunction 1 5 ⟨1, 200⟩
      ConnectionType.Multi 10).asSlotDestroyed 5).manager 1 = [] ∧
    ((start.connectMemberFunction 1 5 ⟨1, 200⟩ ConnectionType.Multi 10).asSlotDestroyed
      5).manager.deleted = [10] ∧
    ((start.connectMemberFunction 1 5 ⟨1, 200⟩ ConnectionType.Multi 10).asSlotDestroyed
      5).manager._funcPtrToSlot 1 = [10] := by
  decide

/-- C15 fails on the code: receiver `5` binds the same member function to
signal `1` twice with `Single` (wrappers `10` and `11`). The second call finds
the connection of the first and leaves the manager (the vectors and the tables)
as it is, but the wrapper `11` it made stays allocated: it is in no
vector, and neither the destruction of the receiver nor that of the manager
deletes it. -/
theorem duplicate_single_connect_leaks_wrapper :
    ((start.connectMemberFunction 1 5 ⟨1, 200⟩ ConnectionType.Single 10).connectMemberFunction
        1 5 ⟨1, 200⟩ ConnectionType.Single 11).manager
      = (start.connectMemberFunction 1 5 ⟨1, 200⟩ ConnectionType.Single 10).manager ∧
    SignalsSlotsManager.connections ((start.connectMemberFunction 1 5 ⟨1, 200⟩
        ConnectionType.Single 10).connectMemberFunction 1 5 ⟨1, 200⟩
        ConnectionType.Single 11).manager 1
      = SignalsSlotsManager.connections (start.connectMemberFunction 1 5 ⟨1, 200⟩
        ConnectionType.Single 10).manager 1 ∧
    ((start.connectMemberFunction 1 5 ⟨1, 200⟩ ConnectionType.Single 10).connectMemberFunction
        1 5 ⟨1, 200⟩ ConnectionType.Single 11).manager._funcPtrToSlot 1
      = (start.connectMemberFunction 1 5 ⟨1, 200⟩ ConnectionType.Single
        10).manager._funcPtrToSlot 1 ∧
    (start.connectMemberFunction 1 5 ⟨1, 200⟩ ConnectionType.Single 10).allocated = [10] ∧
    ((start.connectMemberFunction 1 5 ⟨1, 200⟩ ConnectionType.Single 10).connectMemberFunction
        1 5 ⟨1, 200⟩ ConnectionType.Single 11).allocated = [10, 11] ∧
    (((start.connectMemberFunction 1 5 ⟨1, 200⟩ ConnectionType.Single 10).connectMemberFunction
        1 5 ⟨1, 200⟩ ConnectionType.Single 11).asSlotDestroyed 5).allocated = [11] ∧
    (((start.connectMemberFunction 1 5 ⟨1, 200⟩ ConnectionType.Single 10).connectMemberFunction
        1 5 ⟨1, 200⟩ ConnectionType.Single 11).managerDestroyed).allocated = [11] := by
  refine ⟨?_, by decide, by decide, by decide, by decide, by decide, by decide⟩
  exact SignalsSlotsManager.connectSignalSlot_of_dup
    (start.connectMemberFunction 1 5 ⟨1, 200⟩ ConnectionType.Single 10).manager
    1 11 5 ⟨1, 200⟩ SlotType.MemberFunction ConnectionType.Single ⟨rfl, by decide⟩

end SignalsSlots

namespace SignalsSlotsManager

/-- A thread that runs alone through the guard and the two critical sections
does what `connectSignalSlot` does. -/
theorem runTwoConnects_alone (c1 c2 : ConnectCall) (m : SignalsSlotsManager) (pc2 : ConnectPc) :
    runTwoConnects c1 c2 (m, ConnectPc.atGuard, pc2) [false, false, false]
      = (c1.run m, ConnectPc.returned, pc2) := by
  by_cases h : c1.connectionType = ConnectionType.Single
      ∧ checkIfSameConnectionExists m c1.signal c1.slotObj c1.asSlot c1.func = true
  · have hg : connectSignalSlotGuard m c1 = true := by
      simp [connectSignalSlotGuard, h.1, h.2]
    simp [runTwoConnects, connectStep, hg, ConnectCall.run, connectSignalSlot, h]
  · have hg : ¬ connectSignalSlotGuard m c1 = true := by
      intro hg
      simp only [connectSignalSlotGuard, Bool.and_eq_true, decide_eq_true_eq] at hg
      exact h hg
    by_cases hf : c1.func.value = 0
    · simp [runTwoConnects, connectStep, hg, ConnectCall.run, connectSignalSlot, h,
        connectSignalSlotTable, connectSignalSlotRegistery, hf]
    · simp [runTwoConnects, connectStep, hg, ConnectCall.run, connectSignalSlot, h,
        connectSignalSlotTable, connectSignalSlotRegistery, hf]

/-- C18 fails on the code: two threads connect the slot object `10` to signal
`1` of the empty manager with `Single`. The guard of `connectSignalSlot` is
evaluated before the lock is taken, so both threads can pass it before either
appends: under that schedule both calls return and the vector of the signal
holds two `Single` connections of the slot object `10`. When one call runs
after the other the vector holds one. -/
theorem concurrent_single_connects_duplicate :
    (runTwoConnects
        ⟨1, 10, 0, FunctionPtr.null, SlotType.SlotObject, ConnectionType.Single⟩
        ⟨1, 10, 0, FunctionPtr.null, SlotType.SlotObject, ConnectionType.Single⟩
        (empty, ConnectPc.atGuard, ConnectPc.atGuard)
        [false, true, false, false, true, true]).2
      = (ConnectPc.returned, ConnectPc.returned) ∧
    connections (runTwoConnects
        ⟨1, 10, 0, FunctionPtr.null, SlotType.SlotObject, ConnectionType.Single⟩
        ⟨1, 10, 0, FunctionPtr.null, SlotType.SlotObject, ConnectionType.Single⟩
        (empty, ConnectPc.atGuard, ConnectPc.atGuard)
        [false, true, false, false, true, true]).1 1
      = [⟨10, 0, SlotType.SlotObject, ConnectionType.Single⟩,
         ⟨10, 0, SlotType.SlotObject, ConnectionType.Single⟩] ∧
    connections (runTwoConnects
        ⟨1, 10, 0, FunctionPtr.null, SlotType.SlotObject, ConnectionType.Single⟩
        ⟨1, 10, 0, FunctionPtr.null, SlotType.SlotObject, ConnectionType.Single⟩
        (empty, ConnectPc.atGuard, ConnectPc.atGuard)
        [false, false, false, true, true, true]).1 1
      = [⟨10, 0, SlotType.SlotObject, ConnectionType.Single⟩] := by
  decide

end SignalsSlotsManager

/-! ## The entries and the connections of the registry under its updates -/

namespace SignalsSlotsManager

theorem mem_allConnections (r : Registery) (e : SignalPtr × List Connection) (c : Connection)
    (he : e ∈ r) (hc : c ∈ e.2) : c ∈ allConnections r := by
  induction r with
  | nil => simp at he
  | cons kv r ih =>
    simp only [allConnections, List.mem_append]
    rcases List.mem_cons.mp he with rfl | he
    · exact Or.inl hc
    · exact Or.inr (ih he)

theorem find_some_mem (r : Registery) (signal : SignalPtr) (v : List Connection)
    (h : r.find signal = some v) : (signal, v) ∈ r := by
  induction r with
  | nil => simp [Registery.find] at h
  | cons kv r ih =>
    obtain ⟨k, w⟩ := kv
    by_cases hk : k = signal
    · simp only [Registery.find, hk, if_true, Option.some.injEq] at h
      simp [hk, h]
    · simp only [Registery.find, hk, if_false] at h
      exact List.mem_cons_of_mem _ (ih h)

theorem connections_subset_allConnections (m : SignalsSlotsManager) (signal : SignalPtr)
    (c : Connection) (hc : c ∈ connections m signal) :
    c ∈ allConnections m._signalsSlotsRegistery := by
  unfold connections at hc
  cases hfind : m._signalsSlotsRegistery.find signal with
  | none => simp [hfind] at hc
  | some v =>
    simp only [hfind, Option.getD_some] at hc
    exact mem_allConnections _ (signal, v) c (find_some_mem _ _ _ hfind) hc

theorem mem_emplaceBack (r : Registery) (signal : SignalPtr) (tuple : Connection)
    (e : SignalPtr × List Connection) (he : e ∈ r.emplaceBack signal tuple) :
    e ∈ r ∨ e = (signal, (r.find signal).getD [] ++ [tuple]) := by
  induction r with
  | nil =>
    simp only [Registery.emplaceBack, List.mem_singleton] at he
    exact Or.inr (by simp [he, Registery.find])
  | cons kv r ih =>
    obtain ⟨k, v⟩ := kv
    by_cases hk : k = signal
    · simp only [Registery.emplaceBack, hk, if_true, List.mem_cons] at he
      rcases he with he | he
      · exact Or.inr (by simp [he, Registery.find, hk])
      · exact Or.inl (List.mem_cons_of_mem _ he)
    · simp only [Registery.emplaceBack, hk, if_false, List.mem_cons] at he
      rcases he with he | he
      · exact Or.inl (by simp [he])
      · rcases ih he with h1 | h1
        · exact Or.inl (List.mem_cons_of_mem _ h1)
        · exact Or.inr (by simp [h1, Registery.find, hk])

theorem allConnections_emplaceBack_perm (r : Registery) (signal : SignalPtr)
    (tuple : Connection) :
    List.Perm (allConnections (r.emplaceBack signal tuple)) (tuple :: allConnections r) := by
  induction r with
  | nil => simp [Registery.emplaceBack, allConnections]
  | cons kv r ih =>
    obtain ⟨k, v⟩ := kv
    by_cases hk : k = signal
    · simp only [Registery.emplaceBack, hk, if_true, allConnections, List.append_assoc,
        List.singleton_append]
      exact (List.perm_middle).trans (List.Perm.refl _)
    · simp only [Registery.emplaceBack, hk, if_false, allConnections]
      exact (List.Perm.append_left v ih).trans List.perm_middle

theorem mem_assign (r : Registery) (signal : SignalPtr) (v : List Connection)
    (e : SignalPtr × List Connection) (he : e ∈ r.assign signal v) :
    e ∈ r ∨ (e = (signal, v) ∧ ∃ w, r.find signal = some w) := by
  induction r with
  | nil => simp [Registery.assign] at he
  | cons kv r ih =>
    obtain ⟨k, w⟩ := kv
    by_cases hk : k = signal
    · simp only [Registery.assign, hk, if_true, List.mem_cons] at he
      rcases he with he | he
      · exact Or.inr ⟨he, w, by simp [Registery.find, hk]⟩
      · exact Or.inl (List.mem_cons_of_mem _ he)
    · simp only [Registery.assign, hk, if_false, List.mem_cons] at he
      rcases he with he | he
      · exact Or.inl (by simp [he])
      · rcases ih he with h1 | ⟨h1, w1, h2⟩
        · exact Or.inl (List.mem_cons_of_mem _ h1)
        · exact Or.inr ⟨h1, w1, by simp [Registery.find, hk, h2]⟩

theorem allConnections_assign_perm (r : Registery) (signal : SignalPtr)
    (v v1 rem : List Connection) (hfind : r.find signal = some v)
    (hperm : List.Perm (v1 ++ rem) v) :
    List.Perm (allConnections (r.assign signal v1) ++ rem) (allConnections r) := by
  induction r with
  | nil => simp [Registery.find] at hfind
  | cons kv r ih =>
    obtain ⟨k, w⟩ := kv
    by_cases hk : k = signal
    · simp only [Registery.find, hk, if_true, Option.some.injEq] at hfind
      subst hfind
      simp only [Registery.assign, hk, if_true, allConnections]
      have h1 : List.Perm (v1 ++ allConnections r ++ rem) (v1 ++ rem ++ allConnections r) := by
        rw [List.append_assoc, List.append_assoc]
        exact List.Perm.append_left v1 List.perm_append_comm
      exact h1.trans (List.Perm.append_right _ hperm)
    · simp only [Registery.find, hk, if_false] at hfind
      simp only [Registery.assign, hk, if_false, allConnections, List.append_assoc]
      exact List.Perm.append_left w (ih hfind)

theorem mem_erase (r : Registery) (signal : SignalPtr) (e : SignalPtr × List Connection)
    (he : e ∈ r.erase signal) : e ∈ r :=
  (List.mem_filter.mp he).1

theorem allConnections_erase_sublist (r : Registery) (signal : SignalPtr) :
    (allConnections (r.erase signal)).Sublist (allConnections r) := by
  induction r with
  | nil => simp [Registery.erase, allConnections]
  | cons kv r ih =>
    obtain ⟨k, v⟩ := kv
    by_cases hk : k = signal
    · have : Registery.erase ((k, v) :: r) signal = Registery.erase r signal := by
        simp [Registery.erase, List.filter_cons, hk]
      rw [this]
      simp only [allConnections]
      exact ih.trans (List.sublist_append_right _ _)
    · have : Registery.erase ((k, v) :: r) signal = (k, v) :: Registery.erase r signal := by
        simp [Registery.erase, List.filter_cons, hk]
      rw [this]
      simp only [allConnections]
      exact List.Sublist.append (List.Sublist.refl _) ih

theorem allConnections_map_filter (r : Registery) (q : Connection → Bool) :
    allConnections (r.map (fun connection => (connection.1, connection.2.filter q)))
      = (allConnections r).filter q := by
  induction r with
  | nil => rfl
  | cons kv r ih => simp [allConnections, ih]

theorem eraseOwnerLoop_snd (asSlot : AsSlotPtr) (v : List Connection) :
    ∀ del : List SlotObjPtr,
      (eraseOwnerLoop asSlot v del).2
        = del ++ (v.filter (fun tuple => decide (tuple.asSlot = asSlot))).map
            Connection.slotObj := by
  induction v with
  | nil => intro del; simp [eraseOwnerLoop]
  | cons tuple rest ih =>
    intro del
    by_cases h : tuple.asSlot = asSlot
    · simp [eraseOwnerLoop, h, ih]
    · simp [eraseOwnerLoop, h, ih]

theorem eraseOwnerAll_eq (asSlot : AsSlotPtr) (r : Registery) :
    ∀ del : List SlotObjPtr,
      eraseOwnerAll asSlot r del
        = (r.map (fun connection =>
              (connection.1,
                connection.2.filter (fun tuple => decide (tuple.asSlot ≠ asSlot)))),
           del ++ ((allConnections r).filter
              (fun tuple => decide (tuple.asSlot = asSlot))).map Connection.slotObj) := by
  induction r with
  | nil => intro del; simp [eraseOwnerAll, allConnections]
  | cons kv r ih =>
    intro del
    simp [eraseOwnerAll, allConnections, ih, eraseOwnerLoop_fst, eraseOwnerLoop_snd]

theorem destructorLoop_eq (isHeapAllocated : SlotObjPtr → Bool) (v : List Connection) :
    ∀ del : List SlotObjPtr,
      destructorLoop isHeapAllocated v del
        = del ++ (v.map Connection.slotObj).filter isHeapAllocated := by
  induction v with
  | nil => intro del; simp [destructorLoop]
  | cons tuple rest ih =>
    intro del
    by_cases h : isHeapAllocated tuple.slotObj = true
    · simp [destructorLoop, h, ih, List.filter_cons]
    · simp [destructorLoop, h, ih, List.filter_cons]

theorem destructorAll_eq (isHeapAllocated : SlotObjPtr → Bool) (r : Registery) :
    ∀ del : List SlotObjPtr,
      destructorAll isHeapAllocated r del
        = del ++ ((allConnections r).map Connection.slotObj).filter isHeapAllocated := by
  induction r with
  | nil => intro del; simp [destructorAll, allConnections]
  | cons kv r ih =>
    intro del
    simp [destructorAll, allConnections, ih, destructorLoop_eq]

end SignalsSlotsManager

/-! ## The invariant of the reachable states -/

namespace SignalsSlots

open SignalsSlotsManager

theorem Inv.slot_created (p : SignalsSlots) (hinv : Inv p) (c : Connection)
    (hc : c ∈ allConnections p.manager._signalsSlotsRegistery) (ho : c.asSlot ≠ 0) :
    c.slotObj ∈ p.createdObjs := by
  obtain ⟨w, hw, hws, _⟩ := hinv.bound c hc ho
  rw [← hws]
  exact List.mem_map_of_mem _ hw

/-- The connections dropped together with their slot objects are pairwise
distinct slot objects, none of which is left in a connection. -/
theorem Inv.removed_disjoint (p : SignalsSlots) (hinv : Inv p) (all1 rem : List Connection)
    (hperm : List.Perm (all1 ++ rem) (allConnections p.manager._signalsSlotsRegistery))
    (howner : ∀ c ∈ rem, c.asSlot ≠ 0) :
    (rem.map Connection.slotObj).Nodup ∧
    ∀ c ∈ all1, c.slotObj ∉ rem.map Connection.slotObj := by
  have hremc : ∀ s ∈ rem.map Connection.slotObj, s ∈ p.createdObjs := by
    intro s hs
    obtain ⟨c, hc, rfl⟩ := List.mem_map.mp hs
    exact hinv.slot_created p c (hperm.subset (List.mem_append_right _ hc)) (howner c hc)
  have hnd := hinv.unique
  rw [← ((hperm.map Connection.slotObj).filter _).nodup_iff, List.map_append,
    List.filter_append, List.nodup_append] at hnd
  have hfil : (rem.map Connection.slotObj).filter (fun s => decide (s ∈ p.createdObjs))
      = rem.map Connection.slotObj := by
    rw [List.filter_eq_self]
    intro s hs
    simpa using hremc s hs
  rw [hfil] at hnd
  refine ⟨hnd.2.1, ?_⟩
  intro c hc hmem
  refine hnd.2.2 ?_ hmem
  rw [List.mem_filter]
  exact ⟨List.mem_map_of_mem _ hc, by simpa using hremc _ hmem⟩

/-- The invariant is kept when connections are dropped from the registry, the
slot objects of some dropped connections with an owner (`rem`) are deleted, and
only their entries are erased from the tables. -/
theorem Inv.shrink (p : SignalsSlots) (hinv : Inv p) (m1 : SignalsSlotsManager)
    (rem : List Connection)
    (hsub : (allConnections m1._signalsSlotsRegistery).Sublist
      (allConnections p.manager._signalsSlotsRegistery))
    (hrem : ∀ c ∈ rem, c ∈ allConnections p.manager._signalsSlotsRegistery ∧ c.asSlot ≠ 0)
    (hnd : (rem.map Connection.slotObj).Nodup)
    (hdisj : ∀ c ∈ allConnections m1._signalsSlotsRegistery,
      c.slotObj ∉ rem.map Connection.slotObj)
    (hdel : m1.deleted = p.manager.deleted ++ rem.map Connection.slotObj)
    (htable : ∀ (ty : Nat) (s : SlotObjPtr), s ∈ p.manager._funcPtrToSlot ty →
      s ∉ rem.map Connection.slotObj → s ∈ m1._funcPtrToSlot ty)
    (hentries : ∀ e1 ∈ m1._signalsSlotsRegistery,
      ∃ e ∈ p.manager._signalsSlotsRegistery, e1.2.Sublist e.2) :
    Inv { manager := m1, created := p.created } := by
  refine ⟨?_, ?_, ?_, ?_, ?_, ?_, ?_, ?_⟩
  · intro c hc ho
    obtain ⟨w, hw, hws, hwr, hwt⟩ := hinv.bound c (hsub.subset hc) ho
    exact ⟨w, hw, hws, hwr, htable _ _ hwt (hdisj c hc)⟩
  · exact hinv.createdNodup
  · exact hinv.unique.sublist ((hsub.map Connection.slotObj).filter _)
  · intro c hc
    show c.slotObj ∉ m1.deleted
    rw [hdel, List.mem_append]
    rintro (h | h)
    · exact hinv.live c (hsub.subset hc) h
    · exact hdisj c hc h
  · show m1.deleted.Nodup
    rw [hdel, List.nodup_append]
    refine ⟨hinv.deletedNodup, hnd, ?_⟩
    intro s hs1 hs2
    obtain ⟨c, hc, rfl⟩ := List.mem_map.mp hs2
    exact hinv.live c (hrem c hc).1 hs1
  · intro s hs
    show s ∈ p.createdObjs
    have hs1 : s ∈ m1.deleted := hs
    rw [hdel, List.mem_append] at hs1
    rcases hs1 with h | h
    · exact hinv.deletedCreated s h
    · obtain ⟨c, hc, rfl⟩ := List.mem_map.mp h
      exact hinv.slot_created p c (hrem c hc).1 (hrem c hc).2
  · intro e1 he1 slot
    obtain ⟨e, he, hsl⟩ := hentries e1 he1
    exact ((hsl.filter _).length_le).trans (hinv.singleSlot e he slot)
  · intro e1 he1 receiver ty hr
    obtain ⟨e, he, hsl⟩ := hentries e1 he1
    exact ((hsl.filter _).length_le).trans (hinv.singleOwner e he receiver ty hr)

end SignalsSlots

namespace SignalsSlotsManager

theorem allConnections_assign_connections_perm (m : SignalsSlotsManager) (signal : SignalPtr)
    (v1 rem : List Connection) (hperm : List.Perm (v1 ++ rem) (connections m signal)) :
    List.Perm (allConnections (m._signalsSlotsRegistery.assign signal v1) ++ rem)
      (allConnections m._signalsSlotsRegistery) := by
  cases hfind : m._signalsSlotsRegistery.find signal with
  | none =>
    have hc : connections m signal = [] := by simp [connections, hfind]
    rw [hc] at hperm
    have hnil : v1 ++ rem = [] := List.Perm.eq_nil hperm
    have hrem : rem = [] := (List.append_eq_nil.mp hnil).2
    rw [Registery.assign_of_find_none _ _ _ hfind, hrem, List.append_nil]
  | some v =>
    have hc : connections m signal = v := by simp [connections, hfind]
    rw [hc] at hperm
    exact allConnections_assign_perm _ signal v v1 rem hfind hperm

theorem allConnections_assign_sublist (m : SignalsSlotsManager) (signal : SignalPtr)
    (v1 : List Connection) (hsub : v1.Sublist (connections m signal)) :
    (allConnections (m._signalsSlotsRegistery.assign signal v1)).Sublist
      (allConnections m._signalsSlotsRegistery) := by
  unfold connections at hsub
  generalize m._signalsSlotsRegistery = r at hsub ⊢
  induction r with
  | nil => simp [Registery.assign, allConnections]
  | cons kv r ih =>
    obtain ⟨k, w⟩ := kv
    by_cases hk : k = signal
    · simp only [Registery.find, hk, if_true, Option.getD_some] at hsub
      simp only [Registery.assign, hk, if_true, allConnections]
      exact List.Sublist.append hsub (List.Sublist.refl _)
    · simp only [Registery.find, hk, if_false] at hsub
      simp only [Registery.assign, hk, if_false, allConnections]
      exact List.Sublist.append (List.Sublist.refl _) (ih hsub)

theorem entries_assign_sublist (m : SignalsSlotsManager) (signal : SignalPtr)
    (v1 : List Connection) (hsub : v1.Sublist (connections m signal)) :
    ∀ e1 ∈ m._signalsSlotsRegistery.assign signal v1,
      ∃ e ∈ m._signalsSlotsRegistery, e1.2.Sublist e.2 := by
  intro e1 he1
  rcases mem_assign _ _ _ _ he1 with h | ⟨h, w, hw⟩
  · exact ⟨e1, h, List.Sublist.refl _⟩
  · refine ⟨(signal, w), find_some_mem _ _ _ hw, ?_⟩
    have hc : connections m signal = w := by simp [connections, hw]
    rw [h, ← hc]
    exact hsub

theorem onSlotDestroyed_registery (m : SignalsSlotsManager) (slot : SlotObjPtr) :
    (onSlotDestroyed m slot)._signalsSlotsRegistery
      = m._signalsSlotsRegistery.map (fun connection =>
          (connection.1, connection.2.filter (fun tuple => decide (tuple.slotObj ≠ slot)))) := by
  simp only [onSlotDestroyed]
  apply List.map_congr_left
  intro e _
  rw [eraseSlotLoop_eq_filter]

end SignalsSlotsManager

namespace SignalsSlots

open SignalsSlotsManager

theorem Inv.signalDestroyed (p : SignalsSlots) (hinv : Inv p) (signal : SignalPtr) :
    Inv (p.signalDestroyed signal) := by
  refine hinv.shrink p (p.manager.onSignalDestroyed signal) []
    (allConnections_erase_sublist _ _) (by simp) (by simp) (by simp) (by simp [onSignalDestroyed])
    (fun ty s hs _ => hs) ?_
  intro e1 he1
  exact ⟨e1, mem_erase _ _ _ he1, List.Sublist.refl _⟩

theorem Inv.slotDestroyed (p : SignalsSlots) (hinv : Inv p) (slot : SlotObjPtr) :
    Inv (p.slotDestroyed slot) := by
  unfold SignalsSlots.slotDestroyed
  by_cases hh : p.isHeapAllocated slot = false
  · rw [if_pos hh]
    refine hinv.shrink p (p.manager.onSlotDestroyed slot) [] ?_ (by simp) (by simp) (by simp)
      (by simp [onSlotDestroyed]) (fun ty s hs _ => hs) ?_
    · rw [onSlotDestroyed_registery, allConnections_map_filter]
      exact List.filter_sublist _
    · intro e1 he1
      rw [onSlotDestroyed_registery, List.mem_map] at he1
      obtain ⟨e, he, rfl⟩ := he1
      exact ⟨e, he, List.filter_sublist _⟩
  · rw [if_neg hh]
    exact hinv

theorem Inv.disconnectSlotObj (fuel : Nat) (p p1 : SignalsSlots) (hinv : Inv p)
    (signal : SignalPtr) (slot : SlotObjPtr) (type : ConnectionType)
    (h : p.disconnectSlotObj fuel signal slot type = some p1) : Inv p1 := by
  unfold SignalsSlots.disconnectSlotObj disconnectSignalSlot at h
  rw [if_pos rfl] at h
  cases hfind : p.manager._signalsSlotsRegistery.find signal with
  | none =>
    simp only [hfind, Option.map_some', Option.some.injEq] at h
    rw [← h]
    exact hinv
  | some v =>
    simp only [hfind, Option.map_some', Option.some.injEq] at h
    rw [← h]
    have hc : connections p.manager signal = v := by simp [connections, hfind]
    have hsl : (disconnectSlotLoop slot type v).Sublist (connections p.manager signal) := by
      rw [hc]
      exact disconnectSlotLoop_sublist slot type v
    exact hinv.shrink p _ [] (allConnections_assign_sublist p.manager signal _ hsl) (by simp)
      (by simp) (by simp) (by simp) (fun ty s hs _ => hs)
      (entries_assign_sublist p.manager signal _ hsl)

theorem Inv.disconnectMemberFunction (fuel : Nat) (p p1 : SignalsSlots) (hinv : Inv p)
    (signal : SignalPtr) (receiver : AsSlotPtr) (slot : FunctionPtr) (type : ConnectionType)
    (hr : receiver ≠ 0)
    (h : p.disconnectMemberFunction fuel signal receiver slot type = some p1) : Inv p1 := by
  unfold SignalsSlots.disconnectMemberFunction at h
  cases hres : disconnectSignalSlot fuel p.manager signal 0 receiver slot type with
  | none => simp [hres] at h
  | some m1 =>
    simp only [hres, Option.map_some', Option.some.injEq] at h
    rw [← h]
    obtain ⟨heq, hin⟩ := disconnectSignalSlot_owner_eq fuel p.manager m1 signal 0 receiver slot
      type hr hres
    have hperm := allConnections_assign_connections_perm p.manager signal
      (ownerKept receiver type (connections p.manager signal))
      (ownerRemoved receiver type (connections p.manager signal))
      (ownerKept_append_ownerRemoved_perm receiver type _)
    have hown : ∀ c ∈ ownerRemoved receiver type (connections p.manager signal),
        c.asSlot ≠ 0 := by
      intro c hc
      rw [(ownerRemoved_owner receiver type _ c hc).2]
      exact hr
    obtain ⟨hnd, hdisj⟩ := hinv.removed_disjoint p _ _ hperm hown
    have hsl := ownerKept_sublist receiver type (connections p.manager signal)
    refine hinv.shrink p m1 (ownerRemoved receiver type (connections p.manager signal))
      ?_ ?_ hnd ?_ ?_ ?_ ?_
    · rw [heq]
      exact allConnections_assign_sublist p.manager signal _ hsl
    · intro c hc
      exact ⟨connections_subset_allConnections _ signal c
        (ownerRemoved_owner receiver type _ c hc).1, hown c hc⟩
    · rw [heq]
      exact hdisj
    · rw [heq]
    · intro ty s hs hns
      rw [heq]
      by_cases hty : ty = slot.ptrType
      · subst hty
        simp only [Function.update_same]
        exact List.mem_diff_of_mem hs hns
      · simp only [Function.update_noteq hty]
        exact hs
    · rw [heq]
      exact entries_assign_sublist p.manager signal _ hsl

theorem Inv.asSlotDestroyed (p : SignalsSlots) (hinv : Inv p) (receiver : AsSlotPtr)
    (hr : receiver ≠ 0) : Inv (p.asSlotDestroyed receiver) := by
  have heq := eraseOwnerAll_eq receiver p.manager._signalsSlotsRegistery p.manager.deleted
  have hperm : List.Perm
      ((allConnections p.manager._signalsSlotsRegistery).filter
          (fun tuple => decide (tuple.asSlot ≠ receiver))
        ++ (allConnections p.manager._signalsSlotsRegistery).filter
          (fun tuple => decide (tuple.asSlot = receiver)))
      (allConnections p.manager._signalsSlotsRegistery) := by
    refine (List.perm_append_comm).trans ?_
    have h := List.filter_append_perm (fun tuple : Connection => decide (tuple.asSlot = receiver))
      (allConnections p.manager._signalsSlotsRegistery)
    have hfun : (fun tuple : Connection => decide (tuple.asSlot ≠ receiver))
        = (fun tuple : Connection => !decide (tuple.asSlot = receiver)) := by
      funext tuple
      simp
    rw [hfun]
    exact h
  have hown : ∀ c ∈ (allConnections p.manager._signalsSlotsRegistery).filter
      (fun tuple => decide (tuple.asSlot = receiver)), c.asSlot ≠ 0 := by
    intro c hc
    have := (List.mem_filter.mp hc).2
    simp only [decide_eq_true_eq] at this
    rw [this]
    exact hr
  obtain ⟨hnd, hdisj⟩ := hinv.removed_disjoint p _ _ hperm hown
  have hreg : (p.manager.onSlotDestroyedAsSlot receiver)._signalsSlotsRegistery
      = p.manager._signalsSlotsRegistery.map (fun connection =>
          (connection.1,
            connection.2.filter (fun tuple => decide (tuple.asSlot ≠ receiver)))) := by
    simp [onSlotDestroyedAsSlot, heq]
  have hdel : (p.manager.onSlotDestroyedAsSlot receiver).deleted
      = p.manager.deleted ++ ((allConnections p.manager._signalsSlotsRegistery).filter
          (fun tuple => decide (tuple.asSlot = receiver))).map Connection.slotObj := by
    simp [onSlotDestroyedAsSlot, heq]
  refine hinv.shrink p (p.manager.onSlotDestroyedAsSlot receiver)
    ((allConnections p.manager._signalsSlotsRegistery).filter
      (fun tuple => decide (tuple.asSlot = receiver))) ?_ ?_ hnd ?_ hdel ?_ ?_
  · rw [hreg, allConnections_map_filter]
    exact List.filter_sublist _
  · intro c hc
    exact ⟨(List.mem_filter.mp hc).1, hown c hc⟩
  · rw [hreg, allConnections_map_filter]
    exact hdisj
  · intro ty s hs _
    exact hs
  · intro e1 he1
    rw [hreg, List.mem_map] at he1
    obtain ⟨e, he, rfl⟩ := he1
    exact ⟨e, he, List.filter_sublist _⟩

end SignalsSlots

namespace SignalsSlotsManager

theorem connectSignalSlot_deleted (m : SignalsSlotsManager) (signal : SignalPtr)
    (slotObj : SlotObjPtr) (asSlot : AsSlotPtr) (func : FunctionPtr) (slotType : SlotType)
    (connectionType : ConnectionType) :
    (connectSignalSlot m signal slotObj asSlot func slotType connectionType).deleted
      = m.deleted := by
  unfold connectSignalSlot
  split
  · rfl
  · by_cases hf : func.value = 0 <;> simp [hf]

theorem connectSignalSlot_table_mono (m : SignalsSlotsManager) (signal : SignalPtr)
    (slotObj : SlotObjPtr) (asSlot : AsSlotPtr) (func : FunctionPtr) (slotType : SlotType)
    (connectionType : ConnectionType) (ty : Nat) (s : SlotObjPtr)
    (hs : s ∈ m._funcPtrToSlot ty) :
    s ∈ (connectSignalSlot m signal slotObj asSlot func slotType
      connectionType)._funcPtrToSlot ty := by
  unfold connectSignalSlot
  split
  · exact hs
  · by_cases hf : func.value = 0
    · simpa [hf] using hs
    · by_cases hty : ty = func.ptrType
      · subst hty
        simp [hf, hs]
      · simpa [hf, Function.update_noteq hty] using hs

theorem connectSignalSlot_table_new (m : SignalsSlotsManager) (signal : SignalPtr)
    (slotObj : SlotObjPtr) (asSlot : AsSlotPtr) (func : FunctionPtr) (slotType : SlotType)
    (connectionType : ConnectionType)
    (h : ¬ (connectionType = ConnectionType.Single
          ∧ checkIfSameConnectionExists m signal slotObj asSlot func = true))
    (hf : func.value ≠ 0) :
    slotObj ∈ (connectSignalSlot m signal slotObj asSlot func slotType
      connectionType)._funcPtrToSlot func.ptrType := by
  rw [connectSignalSlot_funcPtrToSlot m signal slotObj asSlot func slotType connectionType h hf]
  simp

end SignalsSlotsManager

namespace SignalsSlots

open SignalsSlotsManager

theorem Inv.singleSlot_connections (p : SignalsSlots) (hinv : Inv p) (signal : SignalPtr)
    (slot : SlotObjPtr) :
    ((connections p.manager signal).filter (isSingleSlot slot)).length ≤ 1 := by
  unfold connections
  cases hfind : p.manager._signalsSlotsRegistery.find signal with
  | none => simp
  | some v => exact hinv.singleSlot (signal, v) (find_some_mem _ _ _ hfind) slot

theorem Inv.singleOwner_connections (p : SignalsSlots) (hinv : Inv p) (signal : SignalPtr)
    (receiver : AsSlotPtr) (ty : Nat) (hr : receiver ≠ 0) :
    ((connections p.manager signal).filter (p.isSingleOwnerType receiver ty)).length ≤ 1 := by
  unfold connections
  cases hfind : p.manager._signalsSlotsRegistery.find signal with
  | none => simp
  | some v => exact hinv.singleOwner (signal, v) (find_some_mem _ _ _ hfind) receiver ty hr

/-- Two records of slot objects made by `new` with the same address are one. -/
theorem Inv.record_unique (p : SignalsSlots) (hinv : Inv p) (w1 w2 : Wrapper)
    (h1 : w1 ∈ p.created) (h2 : w2 ∈ p.created) (hs : w1.slotObj = w2.slotObj) : w1 = w2 :=
  List.inj_on_of_nodup_map hinv.createdNodup h1 h2 hs

/-- The invariant is kept when a slot object is made by `new` at an address
that no slot object made before had and no connected slot object has. -/
theorem Inv.addRecord (p : SignalsSlots) (hinv : Inv p) (w : Wrapper)
    (hnew : w.slotObj ∉ p.createdObjs)
    (hfree : w.slotObj ∉ (allConnections p.manager._signalsSlotsRegistery).map
      Connection.slotObj) :
    Inv { manager := p.manager, created := p.created ++ [w] } := by
  have hne : ∀ c ∈ allConnections p.manager._signalsSlotsRegistery,
      c.slotObj ≠ w.slotObj := by
    intro c hc heq
    exact hfree (heq ▸ List.mem_map_of_mem _ hc)
  refine ⟨?_, ?_, ?_, hinv.live, hinv.deletedNodup, ?_, hinv.singleSlot, ?_⟩
  · intro c hc ho
    obtain ⟨w1, hw1, h1, h2, h3⟩ := hinv.bound c hc ho
    exact ⟨w1, List.mem_append_left _ hw1, h1, h2, h3⟩
  · show (List.map Wrapper.slotObj (p.created ++ [w])).Nodup
    rw [List.map_append, List.nodup_append]
    refine ⟨hinv.createdNodup, by simp, ?_⟩
    intro s hs1 hs2
    simp only [List.map_cons, List.map_nil, List.mem_singleton] at hs2
    exact hnew (hs2 ▸ hs1)
  · have hcongr : ((allConnections p.manager._signalsSlotsRegistery).map
          Connection.slotObj).filter
          (fun s => decide (s ∈ List.map Wrapper.slotObj (p.created ++ [w])))
        = ((allConnections p.manager._signalsSlotsRegistery).map
          Connection.slotObj).filter (fun s => decide (s ∈ p.createdObjs)) := by
      apply List.filter_congr
      intro s hs
      have hsw : s ≠ w.slotObj := fun heq => hfree (heq ▸ hs)
      simp [createdObjs, hsw]
    show (List.filter (fun s => decide (s ∈ List.map Wrapper.slotObj (p.created ++ [w])))
      _).Nodup
    rw [hcongr]
    exact hinv.unique
  · intro s hs
    have := hinv.deletedCreated s hs
    simp only [createdObjs, List.map_append, List.mem_append]
    exact Or.inl this
  · intro e he receiver ty hr
    have hcongr : e.2.filter
          (isSingleOwnerType { manager := p.manager, created := p.created ++ [w] } receiver ty)
        = e.2.filter (p.isSingleOwnerType receiver ty) := by
      apply List.filter_congr
      intro c hc
      have hcw : ¬ w.slotObj = c.slotObj :=
        fun heq => hne c (mem_allConnections _ e c he hc) heq.symm
      simp [isSingleOwnerType, boundType, hcw]
    rw [hcongr]
    exact hinv.singleOwner e he receiver ty hr

end SignalsSlots

namespace SignalsSlots

open SignalsSlotsManager

/-- The invariant is kept by `connectSignalSlot` when the slot object passed is
not deleted, is in no connection if it was made by `new`, and, if an owner is
passed, was made by `new` for that owner and a member function that is not
null, which is the one passed. -/
theorem Inv.connect (p : SignalsSlots) (hinv : Inv p) (signal : SignalPtr)
    (slotObj : SlotObjPtr) (asSlot : AsSlotPtr) (func : FunctionPtr) (slotType : SlotType)
    (connectionType : ConnectionType)
    (hfresh : slotObj ∈ p.createdObjs →
      slotObj ∉ (allConnections p.manager._signalsSlotsRegistery).map Connection.slotObj)
    (hlive : slotObj ∉ p.manager.deleted)
    (hbound : asSlot ≠ 0 →
      func.value ≠ 0 ∧ (⟨slotObj, asSlot, func⟩ : Wrapper) ∈ p.created) :
    Inv { manager := connectSignalSlot p.manager signal slotObj asSlot func slotType
            connectionType
          created := p.created } := by
  by_cases hdup : connectionType = ConnectionType.Single
      ∧ checkIfSameConnectionExists p.manager signal slotObj asSlot func = true
  · rw [connectSignalSlot_of_dup p.manager signal slotObj asSlot func slotType _ hdup]
    exact hinv
  · have hreg := connectSignalSlot_registery p.manager signal slotObj asSlot func slotType
      connectionType hdup
    have hdel := connectSignalSlot_deleted p.manager signal slotObj asSlot func slotType
      connectionType
    have hperm := allConnections_emplaceBack_perm p.manager._signalsSlotsRegistery signal
      ⟨slotObj, asSlot, slotType, connectionType⟩
    rw [← hreg] at hperm
    have hmem : ∀ c ∈ allConnections (connectSignalSlot p.manager signal slotObj asSlot func
        slotType connectionType)._signalsSlotsRegistery,
        c = ⟨slotObj, asSlot, slotType, connectionType⟩
          ∨ c ∈ allConnections p.manager._signalsSlotsRegistery := by
      intro c hc
      exact List.mem_cons.mp (hperm.subset hc)
    have hentry : ∀ e ∈ (connectSignalSlot p.manager signal slotObj asSlot func slotType
        connectionType)._signalsSlotsRegistery,
        e ∈ p.manager._signalsSlotsRegistery
          ∨ e = (signal, connections p.manager signal
                  ++ [⟨slotObj, asSlot, slotType, connectionType⟩]) := by
      intro e he
      rw [hreg] at he
      exact mem_emplaceBack _ _ _ _ he
    refine ⟨?_, hinv.createdNodup, ?_, ?_, ?_, ?_, ?_, ?_⟩
    · intro c hc ho
      rcases hmem c hc with rfl | hold
      · obtain ⟨hf, hw⟩ := hbound ho
        exact ⟨⟨slotObj, asSlot, func⟩, hw, rfl, rfl,
          connectSignalSlot_table_new p.manager signal slotObj asSlot func slotType
            connectionType hdup hf⟩
      · obtain ⟨w, hw, h1, h2, h3⟩ := hinv.bound c hold ho
        exact ⟨w, hw, h1, h2, connectSignalSlot_table_mono p.manager signal slotObj asSlot func
          slotType connectionType _ _ h3⟩
    · show (List.filter (fun s => decide (s ∈ p.createdObjs)) _).Nodup
      rw [((hperm.map Connection.slotObj).filter _).nodup_iff, List.map_cons]
      by_cases hc : slotObj ∈ p.createdObjs
      · rw [List.filter_cons_of_pos (by simpa using hc), List.nodup_cons]
        refine ⟨?_, hinv.unique⟩
        intro hmem1
        exact hfresh hc (List.mem_filter.mp hmem1).1
      · rw [List.filter_cons_of_neg (by simpa using hc)]
        exact hinv.unique
    · intro c hc
      show c.slotObj ∉ (connectSignalSlot p.manager signal slotObj asSlot func slotType
        connectionType).deleted
      rw [hdel]
      rcases hmem c hc with rfl | hold
      · exact hlive
      · exact hinv.live c hold
    · show (connectSignalSlot p.manager signal slotObj asSlot func slotType
        connectionType).deleted.Nodup
      rw [hdel]
      exact hinv.deletedNodup
    · intro s hs
      have hs1 : s ∈ (connectSignalSlot p.manager signal slotObj asSlot func slotType
        connectionType).deleted := hs
      rw [hdel] at hs1
      exact hinv.deletedCreated s hs1
    · intro e he slot
      rcases hentry e he with hold | rfl
      · exact hinv.singleSlot e hold slot
      · simp only [List.filter_append, List.length_append]
        by_cases hnew : isSingleSlot slot ⟨slotObj, asSlot, slotType, connectionType⟩ = true
        · have hn := hnew
          simp only [isSingleSlot, decide_eq_true_eq] at hn
          obtain ⟨hct, hza, hso⟩ := hn
          have hzero : asSlot = 0 := hza
          have hchk : checkIfSameConnectionExists p.manager signal slotObj asSlot func
              = false := by
            cases hv : checkIfSameConnectionExists p.manager signal slotObj asSlot func
            · rfl
            · exact absurd ⟨hct, hv⟩ hdup
          rw [checkIfSameConnectionExists_eq, if_pos hzero] at hchk
          have hnil : (connections p.manager signal).filter (isSingleSlot slot) = [] := by
            rw [List.filter_eq_nil_iff]
            intro c hc hcs
            simp only [isSingleSlot, decide_eq_true_eq] at hcs
            have hne := List.any_eq_false.mp hchk c hc
            simp only [decide_eq_true_eq] at hne
            exact hne (hso.trans hcs.2.2.symm)
          simp [hnil, List.filter_cons, hnew]
        · have hnil : List.filter (isSingleSlot slot)
              [(⟨slotObj, asSlot, slotType, connectionType⟩ : Connection)] = [] := by
            simp [List.filter_cons, hnew]
          rw [hnil]
          simpa using hinv.singleSlot_connections p signal slot
    · intro e he receiver ty hr
      show (e.2.filter (p.isSingleOwnerType receiver ty)).length ≤ 1
      rcases hentry e he with hold | rfl
      · exact hinv.singleOwner e hold receiver ty hr
      · simp only [List.filter_append, List.length_append]
        by_cases hnew : p.isSingleOwnerType receiver ty
            ⟨slotObj, asSlot, slotType, connectionType⟩ = true
        · have hn := hnew
          simp only [isSingleOwnerType, boundType, Bool.and_eq_true, decide_eq_true_eq,
            List.any_eq_true] at hn
          obtain ⟨⟨hct, hra⟩, w, hw, hws, hwt⟩ := hn
          have hra1 : asSlot = receiver := hra
          have hane : asSlot ≠ 0 := hra1 ▸ hr
          obtain ⟨_, hrec⟩ := hbound hane
          have hweq : w = ⟨slotObj, asSlot, func⟩ := hinv.record_unique p w _ hw hrec hws
          have hty : ty = func.ptrType := by rw [← hwt, hweq]
          have hchk : checkIfSameConnectionExists p.manager signal slotObj asSlot func
              = false := by
            cases hv : checkIfSameConnectionExists p.manager signal slotObj asSlot func
            · rfl
            · exact absurd ⟨hct, hv⟩ hdup
          rw [checkIfSameConnectionExists_eq, if_neg hane] at hchk
          have hnil : (connections p.manager signal).filter
              (p.isSingleOwnerType receiver ty) = [] := by
            rw [List.filter_eq_nil_iff]
            intro c hc hcs
            simp only [isSingleOwnerType, boundType, Bool.and_eq_true, decide_eq_true_eq,
              List.any_eq_true] at hcs
            obtain ⟨⟨_, hcr⟩, w2, hw2, hw2s, hw2t⟩ := hcs
            have hco : c.asSlot ≠ 0 := by rw [hcr]; exact hr
            obtain ⟨w3, hw3, hw3s, _, hw3t⟩ := hinv.bound c
              (connections_subset_allConnections _ signal c hc) hco
            have h23 : w2 = w3 := hinv.record_unique p w2 w3 hw2 hw3 (hw2s.trans hw3s.symm)
            have hin : c.slotObj ∈ p.manager._funcPtrToSlot func.ptrType := by
              rw [← hty, ← hw2t, h23]
              exact hw3t
            have hne := List.any_eq_false.mp hchk c hc
            apply hne
            simp [sameOwnerInTable, hin, hra1, hcr]
          simp [hnil, List.filter_cons, hnew]
        · have hnil : List.filter (p.isSingleOwnerType receiver ty)
              [(⟨slotObj, asSlot, slotType, connectionType⟩ : Connection)] = [] := by
            simp [List.filter_cons, hnew]
          rw [hnil]
          simpa using hinv.singleOwner_connections p signal receiver ty hr

end SignalsSlots

namespace SignalsSlots

open SignalsSlotsManager

theorem Inv.start : Inv SignalsSlots.start := by
  refine ⟨?_, ?_, ?_, ?_, ?_, ?_, ?_, ?_⟩ <;>
    simp [SignalsSlots.start, SignalsSlotsManager.empty, allConnections, createdObjs]

theorem Inv.connectSlotObj (p : SignalsSlots) (hinv : Inv p) (signal : SignalPtr)
    (slotObj : SlotObjPtr) (connectionType : ConnectionType)
    (hnew : slotObj ∉ p.createdObjs) : Inv (p.connectSlotObj signal slotObj connectionType) :=
  hinv.connect p signal slotObj 0 FunctionPtr.null SlotType.SlotObject connectionType
    (fun hc => absurd hc hnew) (fun hd => hnew (hinv.deletedCreated _ hd))
    (fun h0 => absurd rfl h0)

theorem Inv.connectMemberFunction (p : SignalsSlots) (hinv : Inv p) (signal : SignalPtr)
    (receiver : AsSlotPtr) (slot : FunctionPtr) (connectionType : ConnectionType)
    (slotObj : SlotObjPtr) (hs : slot.value ≠ 0) (hnew : slotObj ∉ p.createdObjs)
    (hfree : slotObj ∉ (allConnections p.manager._signalsSlotsRegistery).map
      Connection.slotObj) :
    Inv (p.connectMemberFunction signal receiver slot connectionType slotObj) :=
  (hinv.addRecord p ⟨slotObj, receiver, slot⟩ hnew hfree).connect _ signal slotObj receiver slot
    SlotType.MemberFunction connectionType (fun _ => hfree)
    (fun hd => hnew (hinv.deletedCreated _ hd))
    (fun _ => ⟨hs, List.mem_append_right _ (List.mem_singleton_self _)⟩)

theorem Inv.connectCallable (p : SignalsSlots) (hinv : Inv p) (signal : SignalPtr)
    (slotObj : SlotObjPtr) (hnew : slotObj ∉ p.createdObjs)
    (hfree : slotObj ∉ (allConnections p.manager._signalsSlotsRegistery).map
      Connection.slotObj) :
    Inv (p.connectCallable signal slotObj) :=
  (hinv.addRecord p ⟨slotObj, 0, FunctionPtr.null⟩ hnew hfree).connect _ signal slotObj 0
    FunctionPtr.null SlotType.SlotObject ConnectionType.Multi (fun _ => hfree)
    (fun hd => hnew (hinv.deletedCreated _ hd)) (fun h0 => absurd rfl h0)

/-- Every reachable state of the process satisfies the invariant. -/
theorem inv_of_reachable (p : SignalsSlots) (h : Reachable p) : Inv p := by
  induction h with
  | start => exact Inv.start
  | connectSlotObj p signal slotObj connectionType _ hnew ih =>
    exact ih.connectSlotObj p signal slotObj connectionType hnew
  | connectMemberFunction p signal receiver slot connectionType slotObj _ _ hs hnew hfree ih =>
    exact ih.connectMemberFunction p signal receiver slot connectionType slotObj hs hnew hfree
  | connectCallable p signal slotObj _ hnew hfree ih =>
    exact ih.connectCallable p signal slotObj hnew hfree
  | disconnectSlotObj fuel p p1 signal slot type _ hres ih =>
    exact ih.disconnectSlotObj fuel p p1 signal slot type hres
  | disconnectMemberFunction fuel p p1 signal receiver slot type _ hr hres ih =>
    exact ih.disconnectMemberFunction fuel p p1 signal receiver slot type hr hres
  | signalDestroyed p signal _ ih => exact ih.signalDestroyed p signal
  | slotDestroyed p slot _ ih => exact ih.slotDestroyed p slot
  | asSlotDestroyed p receiver _ hr ih => exact ih.asSlotDestroyed p receiver hr

end SignalsSlots

/-! ## The invariants of the specification -/

namespace SignalsSlots

open SignalsSlotsManager

/-- C17: in every reachable state, the vector of every signal holds at most
one `Single` connection without owner per slot object, and at most one
`Single` connection per receiver and member function the wrapper was made for
(even at most one per receiver and pointer type of the member function). -/
theorem single_connections_unique (p : SignalsSlots) (h : Reachable p) (signal : SignalPtr) :
    (∀ slot : SlotObjPtr,
      ((connections p.manager signal).filter (isSingleSlot slot)).length ≤ 1) ∧
    (∀ (receiver : AsSlotPtr) (func : FunctionPtr), receiver ≠ 0 →
      ((connections p.manager signal).filter (p.isSingleBinding receiver func)).length ≤ 1) ∧
    (∀ (receiver : AsSlotPtr) (ty : Nat), receiver ≠ 0 →
      ((connections p.manager signal).filter (p.isSingleOwnerType receiver ty)).length ≤ 1) := by
  have hinv := inv_of_reachable p h
  refine ⟨fun slot => hinv.singleSlot_connections p signal slot, ?_,
    fun receiver ty hr => hinv.singleOwner_connections p signal receiver ty hr⟩
  intro receiver func hr
  refine le_trans (List.Sublist.length_le ?_)
    (hinv.singleOwner_connections p signal receiver func.ptrType hr)
  apply List.monotone_filter_right
  intro c hc
  simp only [isSingleBinding, decide_eq_true_eq] at hc
  simp only [isSingleOwnerType, boundType, Bool.and_eq_true, decide_eq_true_eq,
    List.any_eq_true]
  exact ⟨⟨hc.1, hc.2.1⟩, ⟨c.slotObj, receiver, func⟩, hc.2.2, rfl, rfl⟩

/-- C17, at a concrete input: the slot object `20` and a member function of
receiver `5` are each connected twice to signal `1` with `Single`; the state is
reachable and the vector holds one `Single` connection of each. -/
theorem single_connections_unique_witness :
    ((connections ((((start.connectSlotObj 1 20 ConnectionType.Single).connectSlotObj 1 20
        ConnectionType.Single).connectMemberFunction 1 5 ⟨1, 200⟩ ConnectionType.Single
        10).connectMemberFunction 1 5 ⟨1, 200⟩ ConnectionType.Single 11).manager 1).filter
        (isSingleSlot 20)).length ≤ 1 ∧
    connections ((((start.connectSlotObj 1 20 ConnectionType.Single).connectSlotObj 1 20
        ConnectionType.Single).connectMemberFunction 1 5 ⟨1, 200⟩ ConnectionType.Single
        10).connectMemberFunction 1 5 ⟨1, 200⟩ ConnectionType.Single 11).manager 1
      = [⟨20, 0, SlotType.SlotObject, ConnectionType.Single⟩,
         ⟨10, 5, SlotType.MemberFunction, ConnectionType.Single⟩] := by
  refine ⟨(single_connections_unique _ ?_ 1).1 20, by decide⟩
  apply Reachable.connectMemberFunction _ _ _ _ _ _ _ (by decide) (by decide) (by decide)
    (by decide)
  apply Reachable.connectMemberFunction _ _ _ _ _ _ _ (by decide) (by decide) (by decide)
    (by decide)
  apply Reachable.connectSlotObj _ _ _ _ _ (by decide)
  exact Reachable.connectSlotObj _ _ _ _ Reachable.start (by decide)

/-- C19: in every reachable state no slot object has been deleted twice, a
slot object made by `new` is in at most one connection of the whole registry,
and no connected slot object has been deleted; so the deletion log has no
repetition after a disconnect by owner and member function that returns,
after the destruction of a receiver, and after the destruction of the
manager. -/
theorem wrappers_deleted_once (p : SignalsSlots) (h : Reachable p) :
    p.manager.deleted.Nodup ∧
    (∀ s ∈ p.createdObjs,
      ((allConnections p.manager._signalsSlotsRegistery).map Connection.slotObj).count s ≤ 1) ∧
    (∀ c ∈ allConnections p.manager._signalsSlotsRegistery, c.slotObj ∉ p.manager.deleted) ∧
    (∀ (fuel : Nat) (signal : SignalPtr) (receiver : AsSlotPtr) (slot : FunctionPtr)
      (type : ConnectionType) (p1 : SignalsSlots), receiver ≠ 0 →
      p.disconnectMemberFunction fuel signal receiver slot type = some p1 →
      p1.manager.deleted.Nodup) ∧
    (∀ receiver : AsSlotPtr, receiver ≠ 0 →
      (p.asSlotDestroyed receiver).manager.deleted.Nodup) ∧
    p.managerDestroyed.manager.deleted.Nodup := by
  have hinv := inv_of_reachable p h
  refine ⟨hinv.deletedNodup, ?_, hinv.live, ?_, ?_, ?_⟩
  · intro s hs
    have hcount := List.nodup_iff_count_le_one.mp hinv.unique s
    rwa [List.count_filter (by simpa using hs)] at hcount
  · intro fuel signal receiver slot type p1 hr hres
    exact (hinv.disconnectMemberFunction fuel p p1 signal receiver slot type hr hres).deletedNodup
  · intro receiver hr
    exact (hinv.asSlotDestroyed p receiver hr).deletedNodup
  · show (destructorAll p.isHeapAllocated p.manager._signalsSlotsRegistery
      p.manager.deleted).Nodup
    rw [destructorAll_eq, List.nodup_append]
    refine ⟨hinv.deletedNodup, hinv.unique, ?_⟩
    intro s hs1 hs2
    obtain ⟨c, hc, rfl⟩ := List.mem_map.mp (List.mem_filter.mp hs2).1
    exact hinv.live c hc hs1

/-- C19, at a concrete input: receiver `5` binds a member function to the
signals `1` and `2` (wrappers `10` and `11`) and a callable is connected to
signal `1` (slot object `12`); the state is reachable, and the destruction of
the receiver followed by that of the manager deletes each of the three slot
objects once. -/
theorem wrappers_deleted_once_witness :
    (((((start.connectMemberFunction 1 5 ⟨1, 200⟩ ConnectionType.Multi 10).connectMemberFunction
        2 5 ⟨1, 200⟩ ConnectionType.Multi 11).connectCallable 1 12).asSlotDestroyed
        5).managerDestroyed).manager.deleted.Nodup ∧
    (((((start.connectMemberFunction 1 5 ⟨1, 200⟩ ConnectionType.Multi 10).connectMemberFunction
        2 5 ⟨1, 200⟩ ConnectionType.Multi 11).connectCallable 1 12).asSlotDestroyed
        5).managerDestroyed).manager.deleted = [10, 11, 12] := by
  refine ⟨(wrappers_deleted_once _ ?_).2.2.2.2.2, by decide⟩
  apply Reachable.asSlotDestroyed _ _ _ (by decide)
  apply Reachable.connectCallable _ _ _ _ (by decide) (by decide)
  apply Reachable.connectMemberFunction _ _ _ _ _ _ _ (by decide) (by decide) (by decide)
    (by decide)
  exact Reachable.connectMemberFunction _ _ _ _ _ _ Reachable.start (by decide) (by decide)
    (by decide) (by decide)

/-- C20: in every reachable state, every connection of the registry that
carries an owner carries a slot object that was made by `new` for a member
function of that owner, and the slot object is in the table of the pointer
type of that member function; so it is for the connections of every signal. -/
theorem owner_connection_in_table (p : SignalsSlots) (h : Reachable p) :
    (∀ c ∈ allConnections p.manager._signalsSlotsRegistery, c.asSlot ≠ 0 →
      ∃ w ∈ p.created, w.slotObj = c.slotObj ∧ w.receiver = c.asSlot
        ∧ c.slotObj ∈ p.manager._funcPtrToSlot w.slot.ptrType) ∧
    (∀ (signal : SignalPtr), ∀ c ∈ connections p.manager signal, c.asSlot ≠ 0 →
      ∃ w ∈ p.created, w.slotObj = c.slotObj ∧ w.receiver = c.asSlot
        ∧ c.slotObj ∈ p.manager._funcPtrToSlot w.slot.ptrType) ∧
    (∀ w1 ∈ p.created, ∀ w2 ∈ p.created, w1.slotObj = w2.slotObj → w1 = w2) := by
  have hinv := inv_of_reachable p h
  refine ⟨hinv.bound, ?_, ?_⟩
  · intro signal c hc ho
    exact hinv.bound c (connections_subset_allConnections _ signal c hc) ho
  · intro w1 h1 w2 h2 hs
    exact hinv.record_unique p w1 w2 h1 h2 hs

/-- C20, at a concrete input: receiver `5` binds member functions of the
pointer types `1` and `2` to signal `1` (wrappers `10` and `11`) and receiver
`6` one of pointer type `1` (wrapper `12`); receiver `6` is destroyed. The
state is reachable and the wrapper `11` of the connection left for pointer
type `2` is in the table of pointer type `2`. -/
theorem owner_connection_in_table_witness :
    ∃ w ∈ ((((start.connectMemberFunction 1 5 ⟨1, 200⟩ ConnectionType.Multi
        10).connectMemberFunction 1 5 ⟨2, 300⟩ ConnectionType.Multi 11).connectMemberFunction
        1 6 ⟨1, 200⟩ ConnectionType.Multi 12).asSlotDestroyed 6).created,
      w.slotObj = 11 ∧ w.receiver = 5 ∧
      11 ∈ ((((start.connectMemberFunction 1 5 ⟨1, 200⟩ ConnectionType.Multi
        10).connectMemberFunction 1 5 ⟨2, 300⟩ ConnectionType.Multi 11).connectMemberFunction
        1 6 ⟨1, 200⟩ ConnectionType.Multi 12).asSlotDestroyed 6).manager._funcPtrToSlot
          w.slot.ptrType := by
  refine (owner_connection_in_table _ ?_).2.1 1
    ⟨11, 5, SlotType.MemberFunction, ConnectionType.Multi⟩ (by decide) (by decide)
  apply Reachable.asSlotDestroyed _ _ _ (by decide)
  apply Reachable.connectMemberFunction _ _ _ _ _ _ _ (by decide) (by decide) (by decide)
    (by decide)
  apply Reachable.connectMemberFunction _ _ _ _ _ _ _ (by decide) (by decide) (by decide)
    (by decide)
  exact Reachable.connectMemberFunction _ _ _ _ _ _ Reachable.start (by decide) (by decide)
    (by decide) (by decide)

end SignalsSlots

/-! ## The duplicate check of a member-function connect in the reachable states -/

namespace SignalsSlotsManager

theorem connectSignalSlot_table_mem (m : SignalsSlotsManager) (signal : SignalPtr)
    (slotObj : SlotObjPtr) (asSlot : AsSlotPtr) (func : FunctionPtr) (slotType : SlotType)
    (connectionType : ConnectionType) (ty : Nat) (s : SlotObjPtr)
    (hs : s ∈ (connectSignalSlot m signal slotObj asSlot func slotType
      connectionType)._funcPtrToSlot ty) :
    s ∈ m._funcPtrToSlot ty ∨ (s = slotObj ∧ ty = func.ptrType ∧ func.value ≠ 0) := by
  unfold connectSignalSlot at hs
  split at hs
  · exact Or.inl hs
  · by_cases hf : func.value = 0
    · exact Or.inl (by simpa [hf] using hs)
    · by_cases hty : ty = func.ptrType
      · subst hty
        simp only [hf, ne_eq, not_false_eq_true, if_true, Function.update_same,
          List.mem_append, List.mem_singleton] at hs
        rcases hs with h | h
        · exact Or.inl h
        · exact Or.inr ⟨h, rfl, hf⟩
      · exact Or.inl (by simpa [hf, Function.update_noteq hty] using hs)

end SignalsSlotsManager

namespace SignalsSlots

open SignalsSlotsManager

/-- In every reachable state a slot object in the table of a pointer type was
made by `new` for a member function of that pointer type. -/
theorem table_typed_of_reachable (p : SignalsSlots) (h : Reachable p) :
    ∀ (ty : Nat) (s : SlotObjPtr), s ∈ p.manager._funcPtrToSlot ty →
      ∃ w ∈ p.created, w.slotObj = s ∧ w.slot.ptrType = ty := by
  induction h with
  | start =>
    intro ty s hs
    simp [SignalsSlots.start, SignalsSlotsManager.empty] at hs
  | connectSlotObj p signal slotObj connectionType _ _ ih =>
    intro ty s hs
    rcases connectSignalSlot_table_mem p.manager signal slotObj 0 FunctionPtr.null
      SlotType.SlotObject connectionType ty s hs with hold | ⟨_, _, hf⟩
    · exact ih ty s hold
    · exact absurd rfl hf
  | connectMemberFunction p signal receiver slot connectionType slotObj _ _ _ _ _ ih =>
    intro ty s hs
    rcases connectSignalSlot_table_mem p.manager signal slotObj receiver slot
      SlotType.MemberFunction connectionType ty s hs with hold | ⟨h1, h2, _⟩
    · obtain ⟨w, hw, hw1, hw2⟩ := ih ty s hold
      exact ⟨w, List.mem_append_left _ hw, hw1, hw2⟩
    · exact ⟨⟨slotObj, receiver, slot⟩, List.mem_append_right _ (List.mem_singleton_self _),
        h1.symm, h2.symm⟩
  | connectCallable p signal slotObj _ _ _ ih =>
    intro ty s hs
    rcases connectSignalSlot_table_mem p.manager signal slotObj 0 FunctionPtr.null
      SlotType.SlotObject ConnectionType.Multi ty s hs with hold | ⟨_, _, hf⟩
    · obtain ⟨w, hw, hw1, hw2⟩ := ih ty s hold
      exact ⟨w, List.mem_append_left _ hw, hw1, hw2⟩
    · exact absurd rfl hf
  | disconnectSlotObj fuel p p1 signal slot type _ hres ih =>
    unfold SignalsSlots.disconnectSlotObj disconnectSignalSlot at hres
    rw [if_pos rfl] at hres
    cases hfind : p.manager._signalsSlotsRegistery.find signal with
    | none =>
      simp only [hfind, Option.map_some', Option.some.injEq] at hres
      rw [← hres]
      exact ih
    | some v =>
      simp only [hfind, Option.map_some', Option.some.injEq] at hres
      rw [← hres]
      exact ih
  | disconnectMemberFunction fuel p p1 signal receiver slot type _ hr hres ih =>
    unfold SignalsSlots.disconnectMemberFunction at hres
    cases hd : disconnectSignalSlot fuel p.manager signal 0 receiver slot type with
    | none => simp [hd] at hres
    | some m1 =>
      simp only [hd, Option.map_some', Option.some.injEq] at hres
      rw [← hres]
      obtain ⟨heq, _⟩ := disconnectSignalSlot_owner_eq fuel p.manager m1 signal 0 receiver slot
        type hr hd
      intro ty s hs
      have hs1 : s ∈ m1._funcPtrToSlot ty := hs
      rw [heq] at hs1
      by_cases hty : ty = slot.ptrType
      · subst hty
        simp only [Function.update_same] at hs1
        exact ih _ s ((List.diff_sublist _ _).subset hs1)
      · simp only [Function.update_noteq hty] at hs1
        exact ih ty s hs1
  | signalDestroyed p signal _ ih => exact ih
  | slotDestroyed p slot _ ih =>
    unfold SignalsSlots.slotDestroyed
    split
    · exact ih
    · exact ih
  | asSlotDestroyed p receiver _ _ ih => exact ih

/-- C6 (as amended): a `Single` connect of a member function of receiver
`asSlot` to a signal changes nothing if and only if the vector of the signal
already holds a connection of `asSlot` whose wrapper is recorded in the table
of the pointer type of the function (a connection made for another member
function of the same pointer type counts); otherwise exactly one connection is
appended to the tail of the vector and the other signals keep theirs. So, in
a reachable state of the process (`new` returns unused addresses), the connect
appends when every connection of `asSlot` in the vector carries a wrapper made
for a member function of another pointer type. -/
theorem single_member_connect_noop_iff (m : SignalsSlotsManager) (signal : SignalPtr)
    (slotObj : SlotObjPtr) (asSlot : AsSlotPtr) (func : FunctionPtr) (slotType : SlotType)
    (ha : asSlot ≠ 0) :
    (connectSignalSlot m signal slotObj asSlot func slotType ConnectionType.Single = m ↔
      ∃ c ∈ connections m signal,
        c.asSlot = asSlot ∧ c.slotObj ∈ m._funcPtrToSlot func.ptrType) ∧
    ((¬ ∃ c ∈ connections m signal,
        c.asSlot = asSlot ∧ c.slotObj ∈ m._funcPtrToSlot func.ptrType) →
      connections (connectSignalSlot m signal slotObj asSlot func slotType
          ConnectionType.Single) signal
        = connections m signal ++ [⟨slotObj, asSlot, slotType, ConnectionType.Single⟩]) ∧
    (∀ other, other ≠ signal →
      (connectSignalSlot m signal slotObj asSlot func slotType
          ConnectionType.Single)._signalsSlotsRegistery.find other
        = m._signalsSlotsRegistery.find other) ∧
    (∀ p : SignalsSlots, Reachable p → p.manager = m →
      (∀ c ∈ connections m signal, c.asSlot = asSlot →
        ∃ w ∈ p.created, w.slotObj = c.slotObj ∧ w.slot.ptrType ≠ func.ptrType) →
      connections (connectSignalSlot m signal slotObj asSlot func slotType
          ConnectionType.Single) signal
        = connections m signal ++ [⟨slotObj, asSlot, slotType, ConnectionType.Single⟩]) := by
  obtain ⟨h1, h2, h3⟩ := connectSignalSlot_single_owner_iff m signal slotObj asSlot func
    slotType ha
  refine ⟨h1, h2, h3, ?_⟩
  intro p hp hm hother
  apply h2
  rintro ⟨c, hc, hco, hct⟩
  obtain ⟨w, hw, hws, hwt⟩ := hother c hc hco
  rw [← hm] at hct
  obtain ⟨w2, hw2, hw2s, hw2t⟩ := table_typed_of_reachable p hp func.ptrType c.slotObj hct
  have heq : w = w2 := (inv_of_reachable p hp).record_unique p w w2 hw hw2 (hws.trans hw2s.symm)
  exact hwt (heq ▸ hw2t)

/-- C6 (as amended), at a concrete input: receiver `5` binds a member function
of pointer type `1` to signal `1` (wrapper `10`) and is destroyed, which
leaves the wrapper `10` in the table of pointer type `1`; receiver `6` binds a
member function of pointer type `2` to signal `1` (wrapper `12`). The state is
reachable, and the `Single` connect of a member function of pointer type `1`
of receiver `6` (wrapper `13`) appends. -/
theorem single_member_connect_noop_iff_witness :
    (((start.connectMemberFunction 1 5 ⟨1, 200⟩ ConnectionType.Multi 10).asSlotDestroyed
        5).connectMemberFunction 1 6 ⟨2, 300⟩ ConnectionType.Multi 12).manager._funcPtrToSlot 1
      = [10] ∧
    connections (connectSignalSlot
        (((start.connectMemberFunction 1 5 ⟨1, 200⟩ ConnectionType.Multi 10).asSlotDestroyed
          5).connectMemberFunction 1 6 ⟨2, 300⟩ ConnectionType.Multi 12).manager
        1 13 6 ⟨1, 200⟩ SlotType.MemberFunction ConnectionType.Single) 1
      = [⟨12, 6, SlotType.MemberFunction, ConnectionType.Multi⟩,
         ⟨13, 6, SlotType.MemberFunction, ConnectionType.Single⟩] := by
  refine ⟨by decide, ?_⟩
  rw [(single_member_connect_noop_iff
    (((start.connectMemberFunction 1 5 ⟨1, 200⟩ ConnectionType.Multi 10).asSlotDestroyed
      5).connectMemberFunction 1 6 ⟨2, 300⟩ ConnectionType.Multi 12).manager
    1 13 6 ⟨1, 200⟩ SlotType.MemberFunction (by decide)).2.2.2
    (((start.connectMemberFunction 1 5 ⟨1, 200⟩ ConnectionType.Multi 10).asSlotDestroyed
      5).connectMemberFunction 1 6 ⟨2, 300⟩ ConnectionType.Multi 12)
    ?_ rfl (by decide)]
  · decide
  · apply Reachable.connectMemberFunction _ _ _ _ _ _ _ (by decide) (by decide) (by decide)
      (by decide)
    apply Reachable.asSlotDestroyed _ _ _ (by decide)
    exact Reachable.connectMemberFunction _ _ _ _ _ _ Reachable.start (by decide) (by decide)
      (by decide) (by decide)

end SignalsSlots

namespace SignalsSlotsManager

/-- Outside the reachable states, with an address used twice: receiver `5`
binds a member function of pointer type `1` (wrapper `10`) and is destroyed,
which leaves `10` in the table of pointer type `1`; receiver `6` binds a
member function of pointer type `2` with a wrapper at the same address `10`.
The `Single` connect of a member function of pointer type `1` of receiver `6`
then appends nothing, although receiver `6` is connected through pointer type
`2` only. -/
theorem single_connect_after_address_reuse :
    connections (connectSignalSlot
        (connectSignalSlot
          (onSlotDestroyedAsSlot
            (connectSignalSlot empty 1 10 5 ⟨1, 200⟩ SlotType.MemberFunction
              ConnectionType.Multi) 5)
          1 10 6 ⟨2, 300⟩ SlotType.MemberFunction ConnectionType.Multi)
        1 11 6 ⟨1, 200⟩ SlotType.MemberFunction ConnectionType.Single) 1
      = [⟨10, 6, SlotType.MemberFunction, ConnectionType.Multi⟩] := by
  decide

end SignalsSlotsManager
